import Mathlib

/-!
# btcleaner: the eviction decision engine, its orchestrator and its history

A shallow embedding of `internal/cleaner/cleaner.go`, `pkg/models/torrent.go` and, of
`internal/transmission/client.go`, `normalizeTracker` and `doRequest`; of
`internal/server/server.go`, `handleDelete`; of `internal/config/config.go`, `parseSize`
and the end of `Load`; of `cmd/btcleaner/main.go`, `runOneShot` and `runDaemon`.

Modelling conventions
* `int`, `int64` and `time.Time` values (the latter built by `time.Unix(sec, 0)`) are
  integers, used unwrapped: `walk`, `selectTorrentsToRemove` and `Run` are the code as long
  as no addition leaves the `int64` range.  The accumulator `totalFreed` of the selection
  loop is the one `int64` whose value decides which items are selected; `walk64` and
  `selectTorrentsToRemove64` are the same loop with that accumulator wrapping around as the
  `int64` does.  The two loops are equal on every listing of items of non-negative sizes
  whose total size is below `2^63` (`walk64_eq_walk`, `selection64_eq_selection`); the
  claims on what the loop does when the accounted total is compared with the target are
  stated on `walk64`.
* A Go `map[string]T` is a total function `String → T` whose value at an absent key is the
  zero value of `T`, which is what a Go map read returns there.
* Logger calls have no effect on any result and are left out; so are the `float64` fields
  (`PercentDone`, `SizeGB`), which are display values only.
* `sort.Sort` is library code.  Its contract (the result is a permutation of the input in
  which no later element is `Less` than an earlier one) is the structure `AgeSort`;
  `goSort` is the insertion sort that `sort.Sort` runs on slices of at most 12 elements.
* The remote store is an explicit state `σ` with the three client operations used by the
  cleaner; every client call is recorded in a call log.
* Go strings are Lean strings read through their character lists; `strings.Split` is
  modelled for the one-character separators the code uses.
* `doRequest` calls itself; its model takes a bound on the number of activations and
  answers `none` when the bound is used up, and it lists the HTTP requests sent.
* The `float64` arithmetic of `parseSize` is the parameter `FloatScale`, of which only the
  exactness on small whole numbers is used.
* The `select` of `runDaemon` is walked over the sequence of events it receives (ticks,
  signals); a mode function that is still blocked has returned `none`.  The calls of `Run`
  that a mode function makes are read off the cleaner and the world it leaves, call log
  included, which are compared with those that successive `Run`s leave (`runTimes`).
-/

namespace Btcleaner

/-! ## pkg/models/torrent.go -/

/-- Torrent metadata (`models.Torrent`); `AddedDate` is the Unix second count. -/
structure Torrent where
  ID : Int
  Name : String
  Hash : String
  AddedDate : Int
  TotalSize : Int
  Trackers : List String
  NormalizedTracker : String
  Status : Int
  deriving DecidableEq, Repr

/-- The zero value of `models.Torrent`. -/
def Torrent.zero : Torrent :=
  { ID := 0, Name := "", Hash := "", AddedDate := 0, TotalSize := 0, Trackers := [],
    NormalizedTracker := "", Status := 0 }

/-- `TorrentsByAge.Less`: `a[i].AddedDate.Before(a[j].AddedDate)`, on the two elements. -/
def TorrentsByAge.Less (x y : Torrent) : Bool := decide (x.AddedDate < y.AddedDate)

/-- Contract of `sort.Sort(models.TorrentsByAge(s))`: the slice is permuted so that no
element is `Less` than one standing before it. -/
structure AgeSort where
  run : List Torrent → List Torrent
  perm : ∀ l, (run l).Perm l
  sorted : ∀ l, (run l).Pairwise (fun x y => TorrentsByAge.Less y x = false)

/-- Inner loop of Go's `insertionSort`: `for j := i; j > a && Less(j, j-1); j-- { Swap }`.
The already sorted part is held back to front, so its head is the element at `j-1`. -/
def goInsert (x : Torrent) : List Torrent → List Torrent
  | [] => [x]
  | y :: ys => if TorrentsByAge.Less x y then y :: goInsert x ys else x :: y :: ys

/-- Go's `insertionSort(data, 0, n)`: each element in turn is moved left into the part
before it. -/
def goInsertionSort (l : List Torrent) : List Torrent :=
  (l.foldl (fun acc x => goInsert x acc) []).reverse

/-! ## internal/cleaner/cleaner.go: selection -/

/-- Go map assignment `m[k] = v`. -/
def setKey {α : Type} (m : String → α) (k : String) (v : α) : String → α :=
  fun k' => if k' = k then v else m k'

/-- First loop of `selectTorrentsToRemove`:
`trackerMap[t.NormalizedTracker] = append(trackerMap[t.NormalizedTracker], t)`. -/
def groupByTracker (torrents : List Torrent) : String → List Torrent :=
  torrents.foldl
    (fun m t => setKey m t.NormalizedTracker (m t.NormalizedTracker ++ [t]))
    (fun _ => [])

/-- The variables of the selection loop: `toRemove`, `totalFreed`, `remainingMap`. -/
structure WalkState where
  toRemove : List Torrent
  totalFreed : Int
  remainingMap : String → Int

/-- The loop `for _, t := range allTorrents` of `selectTorrentsToRemove`:
`break` once `totalFreed >= spaceNeeded`, `continue` when the tracker's remaining count is
`<= minTorrentsPerTracker`, else append, add the size and decrement the count.  The
additions are those of the integers; `walk64` is the loop with the wrapping addition of the
`int64`. -/
def walk (minTorrentsPerTracker spaceNeeded : Int) : List Torrent → WalkState → WalkState
  | [], st => st
  | t :: rest, st =>
    if st.totalFreed ≥ spaceNeeded then st
    else if st.remainingMap t.NormalizedTracker ≤ minTorrentsPerTracker then
      walk minTorrentsPerTracker spaceNeeded rest st
    else
      walk minTorrentsPerTracker spaceNeeded rest
        { toRemove := st.toRemove ++ [t]
          totalFreed := st.totalFreed + t.TotalSize
          remainingMap := setKey st.remainingMap t.NormalizedTracker
            (st.remainingMap t.NormalizedTracker - 1) }

/-- State of `selectTorrentsToRemove` before its selection loop: every tracker's slice is
sorted in place, `remainingMap[tracker] = len(tList)`, nothing selected. -/
def initState (S : AgeSort) (torrents : List Torrent) : WalkState :=
  { toRemove := []
    totalFreed := 0
    remainingMap := fun tracker => ((S.run (groupByTracker torrents tracker)).length : Int) }

/-- State of `selectTorrentsToRemove` after its selection loop over
`allTorrents = sort(copy(torrents))`. -/
def selectState (S : AgeSort) (minTorrentsPerTracker : Int) (torrents : List Torrent)
    (spaceNeeded : Int) : WalkState :=
  walk minTorrentsPerTracker spaceNeeded (S.run torrents) (initState S torrents)

/-- `Cleaner.selectTorrentsToRemove`: returns `toRemove, nil`. -/
def selectTorrentsToRemove (S : AgeSort) (minTorrentsPerTracker : Int)
    (torrents : List Torrent) (spaceNeeded : Int) : Except String (List Torrent) :=
  .ok (selectState S minTorrentsPerTracker torrents spaceNeeded).toRemove

/-- The `int64` value that Go's wrapping arithmetic leaves for the integer `x`: the integer
congruent to `x` modulo `2^64` in the range `-2^63 .. 2^63 - 1`. -/
def wrap64 (x : Int) : Int := (x + 2 ^ 63) % 2 ^ 64 - 2 ^ 63

/-- The selection loop of `selectTorrentsToRemove` with `totalFreed` held as the `int64` it
is: the addition of `totalFreed += t.TotalSize` wraps around.  It is `walk` as long as no
addition leaves the `int64` range (`walk64_eq_walk`). -/
def walk64 (minTorrentsPerTracker spaceNeeded : Int) : List Torrent → WalkState → WalkState
  | [], st => st
  | t :: rest, st =>
    if st.totalFreed ≥ spaceNeeded then st
    else if st.remainingMap t.NormalizedTracker ≤ minTorrentsPerTracker then
      walk64 minTorrentsPerTracker spaceNeeded rest st
    else
      walk64 minTorrentsPerTracker spaceNeeded rest
        { toRemove := st.toRemove ++ [t]
          totalFreed := wrap64 (st.totalFreed + t.TotalSize)
          remainingMap := setKey st.remainingMap t.NormalizedTracker
            (st.remainingMap t.NormalizedTracker - 1) }

/-- State of `selectTorrentsToRemove` after its selection loop, `totalFreed` being held as an
`int64`. -/
def selectState64 (S : AgeSort) (minTorrentsPerTracker : Int) (torrents : List Torrent)
    (spaceNeeded : Int) : WalkState :=
  walk64 minTorrentsPerTracker spaceNeeded (S.run torrents) (initState S torrents)

/-- `Cleaner.selectTorrentsToRemove`, `totalFreed` being held as an `int64`: returns
`toRemove, nil`. -/
def selectTorrentsToRemove64 (S : AgeSort) (minTorrentsPerTracker : Int)
    (torrents : List Torrent) (spaceNeeded : Int) : Except String (List Torrent) :=
  .ok (selectState64 S minTorrentsPerTracker torrents spaceNeeded).toRemove

/-! ## internal/cleaner/cleaner.go: history -/

/-- `MaxHistorySize`. -/
def MaxHistorySize : Nat := 50

/-- A torrent that was deleted (`DeletedTorrent`); `DeletedAt` is the Unix second count. -/
structure DeletedTorrent where
  ID : Int
  Name : String
  Size : Int
  Tracker : String
  DeletedAt : Int
  Reason : String
  deriving DecidableEq, Repr

/-- The fields of `Cleaner` that its methods read or write; the client is `Env`. -/
structure Cleaner where
  minFreeSpace : Int
  minTorrentsPerTracker : Int
  dryRun : Bool
  history : List DeletedTorrent
  deriving DecidableEq, Repr

/-- `New`: a cleaner with an empty history. -/
def New (minFreeSpace minTorrentsPerTracker : Int) (dryRun : Bool) : Cleaner :=
  { minFreeSpace := minFreeSpace, minTorrentsPerTracker := minTorrentsPerTracker,
    dryRun := dryRun, history := [] }

/-- The `DeletedTorrent` value built by `addToHistory(t, reason)` when `time.Now()` reads
`now`. -/
def deletedOf (t : Torrent) (reason : String) (now : Int) : DeletedTorrent :=
  { ID := t.ID, Name := t.Name, Size := t.TotalSize, Tracker := t.NormalizedTracker,
    DeletedAt := now, Reason := reason }

/-- `Cleaner.addToHistory`: put the entry in front, then cut to `MaxHistorySize`. -/
def addToHistory (c : Cleaner) (t : Torrent) (reason : String) (now : Int) : Cleaner :=
  let history := [deletedOf t reason now] ++ c.history
  { c with history :=
      if history.length > MaxHistorySize then history.take MaxHistorySize else history }

/-- `Cleaner.AddManualDeletion`. -/
def AddManualDeletion (c : Cleaner) (id : Int) (name tracker : String) (size : Int)
    (now : Int) : Cleaner :=
  addToHistory c
    { Torrent.zero with ID := id, Name := name, NormalizedTracker := tracker,
                        TotalSize := size }
    "manual" now

/-- `Cleaner.GetHistory`: a copy of the history; the cleaner is not written. -/
def GetHistory (c : Cleaner) : List DeletedTorrent × Cleaner := (c.history, c)

/-! ## internal/cleaner/cleaner.go: the run -/

/-- A call made on the transmission client. -/
inductive Call where
  | GetFreeSpace
  | GetTorrents
  | RemoveTorrent (id : Int) (deleteData : Bool)
  deriving DecidableEq, Repr

/-- What a cleaner sees of the outside: the three client operations it calls, each mapping
the store's state to an answer and a next state, and the reading of `time.Now()`. -/
structure Env (σ : Type) where
  GetFreeSpace : σ → Except String Int × σ
  GetTorrents : σ → Except String (List Torrent) × σ
  RemoveTorrent : Int → Bool → σ → Except String Unit × σ
  Now : σ → Int

/-- The store's state together with the log of the client calls made so far. -/
structure World (σ : Type) where
  store : σ
  calls : List Call

/-- `c.client.GetFreeSpace()`, logged. -/
def callGetFreeSpace {σ : Type} (E : Env σ) (w : World σ) : Except String Int × World σ :=
  ((E.GetFreeSpace w.store).1,
    { store := (E.GetFreeSpace w.store).2, calls := w.calls ++ [Call.GetFreeSpace] })

/-- `c.client.GetTorrents()`, logged. -/
def callGetTorrents {σ : Type} (E : Env σ) (w : World σ) :
    Except String (List Torrent) × World σ :=
  ((E.GetTorrents w.store).1,
    { store := (E.GetTorrents w.store).2, calls := w.calls ++ [Call.GetTorrents] })

/-- `c.client.RemoveTorrent(id, deleteData)`, logged. -/
def callRemoveTorrent {σ : Type} (E : Env σ) (id : Int) (deleteData : Bool) (w : World σ) :
    Except String Unit × World σ :=
  ((E.RemoveTorrent id deleteData w.store).1,
    { store := (E.RemoveTorrent id deleteData w.store).2,
      calls := w.calls ++ [Call.RemoveTorrent id deleteData] })

/-- Outcome of a run (`CleanupResult`). -/
structure CleanupResult where
  InitialFreeSpace : Int
  FinalFreeSpace : Int
  RemovedCount : Int
  RemovedSize : Int
  RemovedTorrents : List Torrent
  NeedCleanup : Bool
  deriving DecidableEq, Repr

/-- The zero value `&CleanupResult{}`. -/
def CleanupResult.zero : CleanupResult :=
  { InitialFreeSpace := 0, FinalFreeSpace := 0, RemovedCount := 0, RemovedSize := 0,
    RemovedTorrents := [], NeedCleanup := false }

/-- The removal loop of `Run`: a failed `RemoveTorrent` is skipped (`continue`), a
successful one is followed by `c.addToHistory(t, "auto")`. -/
def removeLoop {σ : Type} (E : Env σ) : List Torrent → Cleaner → World σ → Cleaner × World σ
  | [], c, w => (c, w)
  | t :: rest, c, w =>
    match (callRemoveTorrent E t.ID true w).1 with
    | .error _ => removeLoop E rest c (callRemoveTorrent E t.ID true w).2
    | .ok _ =>
      removeLoop E rest
        (addToHistory c t "auto" (E.Now (callRemoveTorrent E t.ID true w).2.store))
        (callRemoveTorrent E t.ID true w).2

/-- The part of `Run` after a non-empty selection: fill in the result, then either only
report (dry run) or remove and query the free space again. -/
def applySelection {σ : Type} (E : Env σ) (c : Cleaner) (w : World σ) (result : CleanupResult)
    (toRemove : List Torrent) : Except String CleanupResult × Cleaner × World σ :=
  let result := { result with RemovedTorrents := toRemove,
                              RemovedCount := (toRemove.length : Int) }
  let result := { result with
    RemovedSize := toRemove.foldl (fun acc t => acc + t.TotalSize) result.RemovedSize }
  if c.dryRun then (.ok result, c, w)
  else
    let cw := removeLoop E toRemove c w
    match (callGetFreeSpace E cw.2).1 with
    | .error _ => (.ok result, cw.1, (callGetFreeSpace E cw.2).2)
    | .ok finalFreeSpace =>
      (.ok { result with FinalFreeSpace := finalFreeSpace }, cw.1, (callGetFreeSpace E cw.2).2)

/-- `Cleaner.Run`: the result or the error, the cleaner afterwards, the world afterwards. -/
def Run {σ : Type} (E : Env σ) (S : AgeSort) (c : Cleaner) (w : World σ) :
    Except String CleanupResult × Cleaner × World σ :=
  match (callGetFreeSpace E w).1 with
  | .error err => (.error ("failed to get free space: " ++ err), c, (callGetFreeSpace E w).2)
  | .ok freeSpace =>
    let w₁ := (callGetFreeSpace E w).2
    let result := { CleanupResult.zero with InitialFreeSpace := freeSpace,
                                            FinalFreeSpace := freeSpace }
    if freeSpace ≥ c.minFreeSpace then (.ok { result with NeedCleanup := false }, c, w₁)
    else
      let result := { result with NeedCleanup := true }
      let spaceNeeded := c.minFreeSpace - freeSpace
      match (callGetTorrents E w₁).1 with
      | .error err => (.error ("failed to get torrents: " ++ err), c, (callGetTorrents E w₁).2)
      | .ok torrents =>
        let w₂ := (callGetTorrents E w₁).2
        match selectTorrentsToRemove S c.minTorrentsPerTracker torrents spaceNeeded with
        | .error err => (.error err, c, w₂)
        | .ok toRemove =>
          if toRemove.length = 0 then (.ok result, c, w₂)
          else applySelection E c w₂ result toRemove

/-- `strings.TrimPrefix(s, p)`. -/
def TrimPrefix (s p : String) : String :=
  if p.data.isPrefixOf s.data then String.mk (s.data.drop p.data.length) else s

/-- The pieces of a character sequence between the occurrences of `sep`. -/
def splitChars (sep : Char) : List Char → List (List Char)
  | [] => [[]]
  | c :: cs =>
    if c = sep then [] :: splitChars sep cs
    else
      match splitChars sep cs with
      | [] => [[c]]
      | p :: ps => (c :: p) :: ps

/-- `strings.Split(s, sep)` for a separator of one character. -/
def Split (s : String) (sep : Char) : List String :=
  (splitChars sep s.data).map String.mk

/-- `normalizeTracker`: "unknown" without a tracker, "public-tracker" with several, else
the only tracker with the three protocols trimmed, cut at the first "/" and then at the
first ":".  (`strings.Split` never returns an empty slice, so the `parts[0]` reads succeed
and the last `return "unknown"` is not reached.) -/
def normalizeTracker (trackers : List String) : String :=
  match trackers with
  | [] => "unknown"
  | _ :: _ :: _ => "public-tracker"
  | [tracker] =>
    let tracker := TrimPrefix tracker "http://"
    let tracker := TrimPrefix tracker "https://"
    let tracker := TrimPrefix tracker "udp://"
    match Split tracker '/' with
    | domain :: _ => (Split domain ':').headD ""
    | [] => "unknown"

/-! ## internal/transmission/client.go: the request -/

/-- The fields of `transmission.Client` that `doRequest` reads or writes. -/
structure Client where
  url : String
  username : String
  password : String
  sessionID : String
  deriving DecidableEq, Repr

/-- `RPCRequest`; the arguments map is carried as its JSON text. -/
structure RPCRequest where
  Method : String
  Arguments : String
  Tag : Int
  deriving DecidableEq, Repr

/-- `RPCResponse`; the arguments map is carried as its JSON text. -/
structure RPCResponse where
  Result : String
  Arguments : String
  Tag : Int
  deriving DecidableEq, Repr

/-- The HTTP POST built by `doRequest`: the marshalled request, the basic-auth pair when
`username != ""`, the `X-Transmission-Session-Id` header when `sessionID != ""`. -/
structure HTTPRequest where
  url : String
  body : RPCRequest
  basicAuth : Option (String × String)
  sessionHeader : Option String
  deriving DecidableEq, Repr

/-- What `doRequest` reads of an HTTP response: the status code, the
`X-Transmission-Session-Id` header ("" when absent) and the decoded body, or the error of
reading or decoding it. -/
structure HTTPResponse where
  StatusCode : Int
  sessionHeader : String
  body : Except String RPCResponse

/-- `c.client.Do(httpReq)` against a store in state `σ`: a response or a transport error. -/
def Transport (σ : Type) : Type := HTTPRequest → σ → Except String HTTPResponse × σ

/-- `Client.doRequest`.  The first argument bounds the number of activations of
`doRequest` (the call itself and its recursive calls); the answer is `none` when that
bound is used up before any activation returns.  The last component lists the HTTP
requests sent. -/
def doRequest {σ : Type} (T : Transport σ) :
    Nat → Client → RPCRequest → σ → List HTTPRequest →
      Option (Except String RPCResponse) × Client × σ × List HTTPRequest
  | 0, c, _, s, sent => (none, c, s, sent)
  | fuel + 1, c, req, s, sent =>
    let httpReq : HTTPRequest :=
      { url := c.url, body := req
        basicAuth := if c.username ≠ "" then some (c.username, c.password) else none
        sessionHeader := if c.sessionID ≠ "" then some c.sessionID else none }
    match (T httpReq s).1 with
    | .error err =>
      (some (.error ("request failed: " ++ err)), c, (T httpReq s).2, sent ++ [httpReq])
    | .ok resp =>
      if resp.StatusCode = 409 then
        doRequest T fuel { c with sessionID := resp.sessionHeader } req (T httpReq s).2
          (sent ++ [httpReq])
      else if resp.StatusCode ≠ 200 then
        (some (.error ("unexpected status code: " ++ toString resp.StatusCode)), c,
          (T httpReq s).2, sent ++ [httpReq])
      else
        match resp.body with
        | .error err => (some (.error err), c, (T httpReq s).2, sent ++ [httpReq])
        | .ok rpcResp =>
          if rpcResp.Result ≠ "success" then
            (some (.error ("RPC error: " ++ rpcResp.Result)), c, (T httpReq s).2,
              sent ++ [httpReq])
          else (some (.ok rpcResp), c, (T httpReq s).2, sent ++ [httpReq])

/-! ## strconv, strings -/

/-- The number written by a sequence of decimal digits. -/
def digitsValue (cs : List Char) : Nat :=
  cs.foldl (fun n c => n * 10 + (c.toNat - 48)) 0

/-- `strconv.ParseInt(s, 10, 64)`: an optional sign, then one or more decimal digits, the
value within the range of `int64`. -/
def ParseInt (s : String) : Except String Int :=
  let signed : Bool × List Char :=
    match s.data with
    | '+' :: r => (false, r)
    | '-' :: r => (true, r)
    | cs => (false, cs)
  if signed.2 = [] then .error "invalid syntax"
  else if signed.2.all Char.isDigit then
    let un : Nat := digitsValue signed.2
    if signed.1 then
      if un > 2 ^ 63 then .error "value out of range" else .ok (-(un : Int))
    else
      if un ≥ 2 ^ 63 then .error "value out of range" else .ok (un : Int)
  else .error "invalid syntax"

/-- `strconv.Atoi(s)`, with `int` of 64 bits. -/
def Atoi (s : String) : Except String Int := ParseInt s

/-- `unicode.IsSpace`. -/
def isSpace (c : Char) : Bool :=
  c.toNat ∈ [0x09, 0x0A, 0x0B, 0x0C, 0x0D, 0x20, 0x85, 0xA0, 0x1680, 0x2028, 0x2029, 0x202F,
    0x205F, 0x3000] || (0x2000 ≤ c.toNat && c.toNat ≤ 0x200A)

/-- `strings.TrimSpace(s)`. -/
def TrimSpace (s : String) : String :=
  String.mk ((s.data.dropWhile isSpace).reverse.dropWhile isSpace).reverse

/-! ## internal/config/config.go: sizes -/

/-- The arithmetic of `parseSize` that is done in `float64`:
`int64(num * float64(multiplier))` for `num` parsed by `strconv.ParseFloat(numStr, 64)`, or
the error of `ParseFloat`.  What is used of it: it is exact on a number written with
digits alone that is below `2^53`, when the multiplier is one of the five powers of two of
`parseSize` and the product is below `2^63`. -/
structure FloatScale where
  run : String → Int → Except String Int
  exact : ∀ (numStr : String) (multiplier : Int),
    numStr.data ≠ [] → numStr.data.all Char.isDigit = true →
    multiplier ∈ [1, 1024, 1024 * 1024, 1024 * 1024 * 1024, 1024 * 1024 * 1024 * 1024] →
    digitsValue numStr.data < 2 ^ 53 →
    (digitsValue numStr.data : Int) * multiplier < 2 ^ 63 →
    run numStr multiplier = .ok ((digitsValue numStr.data : Int) * multiplier)

/-- The units of the pattern of `parseSize`, with their multipliers. -/
def unitMultiplier (unit : List Char) : Option Int :=
  if unit = ['K', 'B'] ∨ unit = ['K'] then some 1024
  else if unit = ['M', 'B'] ∨ unit = ['M'] then some (1024 * 1024)
  else if unit = ['G', 'B'] ∨ unit = ['G'] then some (1024 * 1024 * 1024)
  else if unit = ['T', 'B'] ∨ unit = ['T'] then some (1024 * 1024 * 1024 * 1024)
  else if unit = [] then some 1
  else none

/-- The match of the pattern `^(\d+(?:\.\d+)?)\s*(KB|MB|GB|TB|K|M|G|T)?$`: the number text
and the multiplier of the unit, or `none` when the text does not match. -/
def matchSize (cs : List Char) : Option (List Char × Int) :=
  let intPart := cs.takeWhile Char.isDigit
  let afterInt := cs.dropWhile Char.isDigit
  if intPart = [] then none
  else
    let numRest : List Char × List Char :=
      match afterInt with
      | '.' :: r =>
        if r.takeWhile Char.isDigit = [] then (intPart, afterInt)
        else (intPart ++ '.' :: r.takeWhile Char.isDigit, r.dropWhile Char.isDigit)
      | _ => (intPart, afterInt)
    let unit := numRest.2.dropWhile (fun c => c ∈ ['\t', '\n', '\x0c', '\r', ' '])
    match unitMultiplier unit with
    | some multiplier => some (numRest.1, multiplier)
    | none => none

/-- `parseSize`: a plain number of bytes, or a number with a unit. -/
def parseSize (F : FloatScale) (s : String) : Except String Int :=
  let s := TrimSpace s
  match ParseInt s with
  | .ok val => .ok val
  | .error _ =>
    match matchSize (s.data.map Char.toUpper) with
    | none => .error ("invalid size format: " ++ s)
    | some (numStr, multiplier) =>
      match F.run (String.mk numStr) multiplier with
      | .error _ => .error ("invalid number: " ++ String.mk numStr)
      | .ok v => .ok v

/-- The end of `Load`, from the decoded `min_free_space` text and transmission URL: the
parsed target of the configuration returned, or the error. -/
def Load (F : FloatScale) (MinFreeSpaceRaw URL : String) : Except String Int :=
  match
    (if MinFreeSpaceRaw ≠ "" then
      match parseSize F MinFreeSpaceRaw with
      | .error err => Except.error ("invalid min_free_space value: " ++ err)
      | .ok parsed => Except.ok parsed
    else Except.ok (100 * 1024 * 1024 * 1024 : Int)) with
  | .error err => .error err
  | .ok MinFreeSpace =>
    if URL = "" then .error "transmission URL is required" else .ok MinFreeSpace

/-! ## internal/server/server.go: the manual deletion -/

/-- What `handleDelete` reads of the request: the method and the `id` query parameter
("" when absent). -/
structure DeleteRequest where
  Method : String
  id : String
  deriving DecidableEq, Repr

/-- What `handleDelete` writes: the status code and the message. -/
structure Reply where
  status : Int
  message : String
  deriving DecidableEq, Repr

/-- The loop of `handleDelete` over the listing: name, tracker and size of the first
torrent with the id, the zero values when there is none. -/
def torrentInfo (torrents : List Torrent) (id : Int) : String × String × Int :=
  match torrents.find? (fun t => t.ID = id) with
  | some t => (t.Name, t.NormalizedTracker, t.TotalSize)
  | none => ("", "", 0)

/-- `Server.handleDelete`, on the server's cleaner and client: the reply, the cleaner
afterwards, the world afterwards. -/
def handleDelete {σ : Type} (E : Env σ) (c : Cleaner) (r : DeleteRequest) (w : World σ) :
    Reply × Cleaner × World σ :=
  if r.Method ≠ "POST" then ({ status := 405, message := "Method not allowed" }, c, w)
  else if r.id = "" then ({ status := 400, message := "Missing torrent id" }, c, w)
  else
    match Atoi r.id with
    | .error _ => ({ status := 400, message := "Invalid torrent id" }, c, w)
    | .ok id =>
      match (callGetTorrents E w).1 with
      | .error _ =>
        ({ status := 500, message := "Failed to get torrent info" }, c, (callGetTorrents E w).2)
      | .ok torrents =>
        let w₁ := (callGetTorrents E w).2
        let info := torrentInfo torrents id
        match (callRemoveTorrent E id true w₁).1 with
        | .error _ =>
          ({ status := 500, message := "Failed to delete torrent" }, c,
            (callRemoveTorrent E id true w₁).2)
        | .ok _ =>
          let w₂ := (callRemoveTorrent E id true w₁).2
          ({ status := 200, message := "Torrent " ++ toString id ++ " deleted successfully" },
            AddManualDeletion c id info.1 info.2.1 info.2.2 (E.Now w₂.store), w₂)

/-! ## cmd/btcleaner/main.go: the two modes -/

/-- What the `select` of `runDaemon` receives: a tick of the ticker or a signal. -/
inductive DaemonEvent where
  | tick
  | signal
  deriving DecidableEq, Repr

/-- State of a mode function: what it has returned (`none` while it is blocked waiting for an
event that has not come), the cleaner and the world as its `clean.Run()` calls have left
them. -/
structure ModeState (σ : Type) where
  returned : Option (Except String Unit)
  cleaner : Cleaner
  world : World σ

/-- `webServer.Stop()` when `webServer != nil` (its result is given), `nil` otherwise. -/
def stopServer (webServer : Option (Except String Unit)) : Except String Unit :=
  match webServer with
  | some r => r
  | none => .ok ()

/-- `runOneShot`: one `Run`; its error is returned wrapped; otherwise, with a web server,
wait for a signal (`signalled` tells whether one comes) and stop the server. -/
def runOneShot {σ : Type} (E : Env σ) (S : AgeSort) (webServer : Option (Except String Unit))
    (signalled : Bool) (c : Cleaner) (w : World σ) : ModeState σ :=
  match (Run E S c w).1 with
  | .error err =>
    { returned := some (.error ("cleanup failed: " ++ err)), cleaner := (Run E S c w).2.1,
      world := (Run E S c w).2.2 }
  | .ok _ =>
    match webServer with
    | some r =>
      { returned := if signalled then some r else none, cleaner := (Run E S c w).2.1,
        world := (Run E S c w).2.2 }
    | none =>
      { returned := some (.ok ()), cleaner := (Run E S c w).2.1, world := (Run E S c w).2.2 }

/-- `runCleanupCheck`: one `Run`, its error returned as it is. -/
def runCleanupCheck {σ : Type} (E : Env σ) (S : AgeSort) (c : Cleaner) (w : World σ) :
    Except String Unit × Cleaner × World σ :=
  match (Run E S c w).1 with
  | .error err => (.error err, (Run E S c w).2.1, (Run E S c w).2.2)
  | .ok _ => (.ok (), (Run E S c w).2.1, (Run E S c w).2.2)

/-- The `for { select { ... } }` loop of `runDaemon` over the events received, in order: a
tick runs a cleanup check, whose error is only logged; a signal stops the server and
returns. -/
def daemonLoop {σ : Type} (E : Env σ) (S : AgeSort) (webServer : Option (Except String Unit)) :
    List DaemonEvent → ModeState σ → ModeState σ
  | [], st => st
  | .tick :: events, st =>
    daemonLoop E S webServer events
      { st with cleaner := (runCleanupCheck E S st.cleaner st.world).2.1
                world := (runCleanupCheck E S st.cleaner st.world).2.2 }
  | .signal :: _, st => { st with returned := some (stopServer webServer) }

/-- `runDaemon`: a cleanup check at once, its error only logged, then the loop. -/
def runDaemon {σ : Type} (E : Env σ) (S : AgeSort) (webServer : Option (Except String Unit))
    (events : List DaemonEvent) (c : Cleaner) (w : World σ) : ModeState σ :=
  daemonLoop E S webServer events
    { returned := none, cleaner := (runCleanupCheck E S c w).2.1,
      world := (runCleanupCheck E S c w).2.2 }

/-! ## Notions used to state the claims -/

/-- A write to the history: a call of `addToHistory(t, reason)` or of
`AddManualDeletion(id, name, tracker, size)`, with the reading of `time.Now()` in it. -/
inductive HistoryWrite where
  | add (t : Torrent) (reason : String) (now : Int)
  | manual (id : Int) (name tracker : String) (size : Int) (now : Int)
  deriving DecidableEq, Repr

/-- The cleaner after the write. -/
def HistoryWrite.apply (c : Cleaner) : HistoryWrite → Cleaner
  | .add t reason now => addToHistory c t reason now
  | .manual id name tracker size now => AddManualDeletion c id name tracker size now

/-- The entry that the write builds. -/
def HistoryWrite.entry : HistoryWrite → DeletedTorrent
  | .add t reason now => deletedOf t reason now
  | .manual id name tracker size now =>
    { ID := id, Name := name, Size := size, Tracker := tracker, DeletedAt := now,
      Reason := "manual" }

/-- The cleaner after a sequence of writes, first write first. -/
def applyWrites (c : Cleaner) (ops : List HistoryWrite) : Cleaner :=
  ops.foldl HistoryWrite.apply c

/-- An operation of the cleaner's public interface that can write its state: a `Run` (in the
world it meets) or an `AddManualDeletion`. -/
inductive CleanerOp (σ : Type) where
  | run (w : World σ)
  | manual (id : Int) (name tracker : String) (size : Int) (now : Int)

/-- The cleaner after the operation. -/
def CleanerOp.apply {σ : Type} (E : Env σ) (S : AgeSort) (c : Cleaner) : CleanerOp σ → Cleaner
  | .run w => (Run E S c w).2.1
  | .manual id name tracker size now => AddManualDeletion c id name tracker size now

/-- The history entries, in the order of the calls, of the items of a selection whose
`RemoveTorrent(id, true)` call succeeds when the calls are made one after the other from the
world `w`: reason "auto", the item's id, name, size and tracker, the clock read after the
call. -/
def removedEntries {σ : Type} (E : Env σ) : List Torrent → World σ → List DeletedTorrent
  | [], _ => []
  | t :: rest, w =>
    match (E.RemoveTorrent t.ID true w.store).1 with
    | .ok _ =>
      { ID := t.ID, Name := t.Name, Size := t.TotalSize, Tracker := t.NormalizedTracker,
        DeletedAt := E.Now (E.RemoveTorrent t.ID true w.store).2, Reason := "auto" } ::
        removedEntries E rest
          { store := (E.RemoveTorrent t.ID true w.store).2
            calls := w.calls ++ [Call.RemoveTorrent t.ID true] }
    | .error _ =>
      removedEntries E rest
        { store := (E.RemoveTorrent t.ID true w.store).2
          calls := w.calls ++ [Call.RemoveTorrent t.ID true] }

/-- The items of a selection whose `RemoveTorrent(id, true)` call succeeds when the calls
are made one after the other from the store state `s`. -/
def removedItems {σ : Type} (E : Env σ) : List Torrent → σ → List Torrent
  | [], _ => []
  | t :: rest, s =>
    match (E.RemoveTorrent t.ID true s).1 with
    | .ok _ => t :: removedItems E rest (E.RemoveTorrent t.ID true s).2
    | .error _ => removedItems E rest (E.RemoveTorrent t.ID true s).2

/-- Number of items of `l` whose group key (`NormalizedTracker`) is `g`. -/
def groupCount (g : String) (l : List Torrent) : Nat :=
  l.countP (fun t => decide (t.NormalizedTracker = g))

/-- Sum of `TotalSize` over a list of items. -/
def totalSize (l : List Torrent) : Int := (l.map (fun t => t.TotalSize)).sum

/-- The list returned by `selectTorrentsToRemove`. -/
def selection (S : AgeSort) (minTorrentsPerTracker : Int) (torrents : List Torrent)
    (spaceNeeded : Int) : List Torrent :=
  (selectState S minTorrentsPerTracker torrents spaceNeeded).toRemove

/-- Post-selection remaining count of group `g`: its items in the listing that are not in
the returned selection. -/
def remainingCount (S : AgeSort) (minTorrentsPerTracker : Int) (torrents : List Torrent)
    (spaceNeeded : Int) (g : String) : Int :=
  (groupCount g torrents : Int) -
    (groupCount g (selection S minTorrentsPerTracker torrents spaceNeeded) : Int)

/-- The cleaner and the world after `n` successive calls of `Run`, each made on the cleaner
and in the world that the one before has left. -/
def runTimes {σ : Type} (E : Env σ) (S : AgeSort) : Nat → Cleaner × World σ → Cleaner × World σ
  | 0, cw => cw
  | n + 1, cw => runTimes E S n (Run E S cw.1 cw.2).2

/-- The items that the selection loop appends to `toRemove` when it walks `l` from a state
with `totalFreed = freed` and `remainingMap = rem`. -/
def picks (minTorrentsPerTracker spaceNeeded : Int) :
    List Torrent → Int → (String → Int) → List Torrent
  | [], _, _ => []
  | t :: rest, freed, rem =>
    if freed ≥ spaceNeeded then []
    else if rem t.NormalizedTracker ≤ minTorrentsPerTracker then
      picks minTorrentsPerTracker spaceNeeded rest freed rem
    else
      t :: picks minTorrentsPerTracker spaceNeeded rest (freed + t.TotalSize)
        (setKey rem t.NormalizedTracker (rem t.NormalizedTracker - 1))

/-- The list returned by `selectTorrentsToRemove64`. -/
def selection64 (S : AgeSort) (minTorrentsPerTracker : Int) (torrents : List Torrent)
    (spaceNeeded : Int) : List Torrent :=
  (selectState64 S minTorrentsPerTracker torrents spaceNeeded).toRemove

/-- Post-selection remaining count of group `g` for `selectTorrentsToRemove64`: its items in
the listing that are not in the returned selection. -/
def remainingCount64 (S : AgeSort) (minTorrentsPerTracker : Int) (torrents : List Torrent)
    (spaceNeeded : Int) (g : String) : Int :=
  (groupCount g torrents : Int) -
    (groupCount g (selection64 S minTorrentsPerTracker torrents spaceNeeded) : Int)

/-- The items that the loop with the `int64` accumulator appends to `toRemove` when it walks
`l` from a state with `totalFreed = freed` and `remainingMap = rem`. -/
def picks64 (minTorrentsPerTracker spaceNeeded : Int) :
    List Torrent → Int → (String → Int) → List Torrent
  | [], _, _ => []
  | t :: rest, freed, rem =>
    if freed ≥ spaceNeeded then []
    else if rem t.NormalizedTracker ≤ minTorrentsPerTracker then
      picks64 minTorrentsPerTracker spaceNeeded rest freed rem
    else
      t :: picks64 minTorrentsPerTracker spaceNeeded rest (wrap64 (freed + t.TotalSize))
        (setKey rem t.NormalizedTracker (rem t.NormalizedTracker - 1))

/-! ## Example inputs -/

/-- One GiB in bytes (`1024*1024*1024`). -/
def gib : Int := 1024 * 1024 * 1024

/-- An item with the given id, size, group key and added-timestamp. -/
def mkTorrent (id size : Int) (group : String) (added : Int) : Torrent :=
  { Torrent.zero with ID := id, TotalSize := size, NormalizedTracker := group,
                      AddedDate := added }

/-- Items of the three-item scenario: two items of group A, one of group B. -/
def scenarioItems : List Torrent :=
  [mkTorrent 1 (10 * gib) "A" 1, mkTorrent 2 (10 * gib) "A" 2, mkTorrent 3 (10 * gib) "B" 3]

/-- A listing whose only group holds a single item. -/
def loneItems : List Torrent := [mkTorrent 3 (10 * gib) "B" 3]

/-- Two items of one group with the same added-timestamp, the larger id listed first. -/
def tieItems : List Torrent := [mkTorrent 2 10 "A" 5, mkTorrent 1 10 "A" 5]

/-- The items of `tieItems`, the smaller id listed first. -/
def tieItemsSwapped : List Torrent := [mkTorrent 1 10 "A" 5, mkTorrent 2 10 "A" 5]

/-- State of a simulated store: reachability, free bytes, listing, the ids whose removal
fails, and the clock. -/
structure SimStore where
  online : Bool
  free : Int
  items : List Torrent
  failing : List Int
  clock : Int
  deriving DecidableEq, Repr

/-- A simulated store: every call fails while it is offline; a removal of an id listed in
`failing` fails; a successful removal drops the item, frees its bytes and advances the
clock. -/
def simEnv : Env SimStore where
  GetFreeSpace s := if s.online then (.ok s.free, s) else (.error "unreachable", s)
  GetTorrents s := if s.online then (.ok s.items, s) else (.error "unreachable", s)
  RemoveTorrent id _ s :=
    if s.online ∧ id ∉ s.failing then
      (.ok (), { s with items := s.items.filter (fun t => t.ID ≠ id)
                        free := s.free + totalSize (s.items.filter (fun t => t.ID = id))
                        clock := s.clock + 1 })
    else (.error "removal failed", s)
  Now s := s.clock

/-- A world whose store holds the scenario items with 100 GiB free, no call made yet. -/
def simWorld : World SimStore :=
  { store := { online := true, free := 100 * gib, items := scenarioItems, failing := [],
               clock := 1000 }
    calls := [] }

/-- The world `simWorld` with the store unreachable. -/
def offlineWorld : World SimStore :=
  { simWorld with store := { simWorld.store with online := false } }

/-- The world `simWorld` with a store that refuses to remove the item of id 1. -/
def stubbornWorld : World SimStore :=
  { simWorld with store := { simWorld.store with failing := [1] } }

/-- The simulated store, except that its free-space query times out once the clock has
moved, that is after a successful removal. -/
def flakyEnv : Env SimStore :=
  { simEnv with
    GetFreeSpace := fun s =>
      if s.clock = 1000 then (.ok s.free, s) else (.error "timeout", s) }

/-- A client without credentials or session id. -/
def newClient : Client :=
  { url := "http://localhost:9091/transmission/rpc", username := "", password := "",
    sessionID := "" }

/-- The request of `GetSession`. -/
def sessionGet : RPCRequest := { Method := "session-get", Arguments := "", Tag := 0 }

/-- A store that answers every request with status 409 and a session id. -/
def always409 : Transport Unit :=
  fun _ s => (.ok { StatusCode := 409, sessionHeader := "token", body := .error "conflict" }, s)

/-- A store that answers 409 with a session id to a request without the header and 200 with
a successful body to a request with it. -/
def handshake : Transport Unit :=
  fun r s =>
    match r.sessionHeader with
    | none => (.ok { StatusCode := 409, sessionHeader := "token", body := .error "conflict" }, s)
    | some _ =>
      (.ok { StatusCode := 200, sessionHeader := "",
             body := .ok { Result := "success", Arguments := "", Tag := 0 } }, s)

/-- Two trackers of one torrent. -/
def twoTrackers : List String := ["http://a.example/announce", "udp://b.example:6969"]

/-- Two groups of two items each, added at 1, 2 (group A) and 3, 4 (group B). -/
def mixedItems : List Torrent :=
  [mkTorrent 1 (10 * gib) "A" 1, mkTorrent 2 (10 * gib) "A" 2, mkTorrent 3 (10 * gib) "B" 3,
   mkTorrent 4 (10 * gib) "B" 4]

/-- A float scaling that computes with exact integers on numbers written with digits
alone and fails on the others. -/
def wholeScale : FloatScale where
  run numStr multiplier :=
    if numStr.data.all Char.isDigit ∧ (digitsValue numStr.data : Int) * multiplier < 2 ^ 63
    then .ok ((digitsValue numStr.data : Int) * multiplier)
    else .error "not a whole number in range"
  exact numStr multiplier _ hd _ _ hr := by
    simp only [hd, hr, and_self, if_true]

/-- Three items of group A whose sizes, `2^62`, `2^62` and 7 bytes, add up to more than the
largest `int64`. -/
def hugeItems : List Torrent :=
  [mkTorrent 1 (2 ^ 62) "A" 1, mkTorrent 2 (2 ^ 62) "A" 2, mkTorrent 3 7 "A" 3]

/-- Fifty-one manual deletions, of the ids 0 to 50 in this order. -/
def fiftyOneWrites : List HistoryWrite :=
  (List.range 51).map (fun i => HistoryWrite.manual (i : Int) "item" "A" 1 (i : Int))

/-! ## A conforming sort -/

/-- The sort that `sort.Sort` performs on a slice of at most 12 elements: Go's insertion
sort, with the proof that it meets the contract. -/
def goSort : AgeSort where
  run := goInsertionSort
  perm l := by
    have ins : ∀ (x : Torrent) (ys : List Torrent), (goInsert x ys).Perm (x :: ys) := by
      intro x ys
      induction ys with
      | nil => simp [goInsert]
      | cons y ys ih =>
        unfold goInsert
        split
        · exact (List.Perm.cons y ih).trans (List.Perm.swap x y ys)
        · exact List.Perm.refl _
    have fold : ∀ (xs acc : List Torrent),
        (xs.foldl (fun acc x => goInsert x acc) acc).Perm (xs ++ acc) := by
      intro xs
      induction xs with
      | nil => intro acc; simp
      | cons x xs ih =>
        intro acc
        simp only [List.foldl_cons, List.cons_append]
        exact (ih (goInsert x acc)).trans
          (((ins x acc).append_left xs).trans List.perm_middle)
    unfold goInsertionSort
    exact (List.reverse_perm _).trans (by simpa using fold l [])
  sorted l := by
    have ins : ∀ (x : Torrent) (ys : List Torrent), (goInsert x ys).Perm (x :: ys) := by
      intro x ys
      induction ys with
      | nil => simp [goInsert]
      | cons y ys ih =>
        unfold goInsert
        split
        · exact (List.Perm.cons y ih).trans (List.Perm.swap x y ys)
        · exact List.Perm.refl _
    have desc : ∀ (x : Torrent) (ys : List Torrent),
        ys.Pairwise (fun a b => TorrentsByAge.Less a b = false) →
        (goInsert x ys).Pairwise (fun a b => TorrentsByAge.Less a b = false) := by
      intro x ys
      induction ys with
      | nil => intro _; simp [goInsert]
      | cons y ys ih =>
        intro h
        have hy := List.pairwise_cons.mp h
        unfold goInsert
        split
        · rename_i hxy
          refine List.pairwise_cons.mpr ⟨?_, ih hy.2⟩
          intro b hb
          rcases List.mem_cons.mp ((ins x ys).subset hb) with hbx | hbys
          · subst hbx
            simp only [TorrentsByAge.Less, decide_eq_true_eq, decide_eq_false_iff_not] at hxy ⊢
            omega
          · exact hy.1 b hbys
        · rename_i hxy
          refine List.pairwise_cons.mpr ⟨?_, h⟩
          intro b hb
          rcases List.mem_cons.mp hb with hby | hbys
          · subst hby
            simpa using hxy
          · have hyb := hy.1 b hbys
            simp only [TorrentsByAge.Less, decide_eq_true_eq, decide_eq_false_iff_not]
              at hxy hyb ⊢
            omega
    have fold : ∀ (xs acc : List Torrent),
        acc.Pairwise (fun a b => TorrentsByAge.Less a b = false) →
        (xs.foldl (fun acc x => goInsert x acc) acc).Pairwise
          (fun a b => TorrentsByAge.Less a b = false) := by
      intro xs
      induction xs with
      | nil => intro acc h; simpa using h
      | cons x xs ih => intro acc h; exact ih _ (desc x acc h)
    unfold goInsertionSort
    exact List.pairwise_reverse.mpr (fold l [] List.Pairwise.nil)

/-! ## Selection: the loop invariant -/

theorem groupCount_cons (g : String) (t : Torrent) (l : List Torrent) :
    groupCount g (t :: l) = groupCount g l + (if t.NormalizedTracker = g then 1 else 0) := by
  unfold groupCount
  rw [List.countP_cons]
  simp

theorem groupCount_pos_iff (g : String) (l : List Torrent) :
    0 < groupCount g l ↔ ∃ t ∈ l, t.NormalizedTracker = g := by
  unfold groupCount
  rw [List.countP_pos_iff]
  simp

theorem groupByTracker_fold_length (l : List Torrent) (m : String → List Torrent)
    (g : String) :
    ((l.foldl (fun m t => setKey m t.NormalizedTracker (m t.NormalizedTracker ++ [t])) m)
      g).length = (m g).length + groupCount g l := by
  induction l generalizing m with
  | nil => simp [groupCount]
  | cons t ts ih =>
    rw [List.foldl_cons, ih, groupCount_cons]
    unfold setKey
    by_cases h : t.NormalizedTracker = g
    · subst h
      simp
      omega
    · have h2 : ¬ g = t.NormalizedTracker := fun e => h e.symm
      simp [h, h2]

theorem groupByTracker_length (torrents : List Torrent) (g : String) :
    (groupByTracker torrents g).length = groupCount g torrents := by
  unfold groupByTracker
  rw [groupByTracker_fold_length]
  simp

theorem initState_remaining (S : AgeSort) (torrents : List Torrent) (g : String) :
    (initState S torrents).remainingMap g = (groupCount g torrents : Int) := by
  simp only [initState]
  rw [(S.perm _).length_eq, groupByTracker_length]

/-- Invariant of the selection loop, from an arbitrary loop state. -/
theorem walk_spec (m need : Int) (l : List Torrent) (st : WalkState) :
    ∃ sel : List Torrent,
      (walk m need l st).toRemove = st.toRemove ++ sel ∧
      sel.Sublist l ∧
      (walk m need l st).totalFreed = st.totalFreed + totalSize sel ∧
      (∀ g, (walk m need l st).remainingMap g = st.remainingMap g - (groupCount g sel : Int)) ∧
      (∀ t ∈ sel, m ≤ (walk m need l st).remainingMap t.NormalizedTracker) ∧
      (∀ t ∈ sel, m < st.remainingMap t.NormalizedTracker) := by
  induction l generalizing st with
  | nil => exact ⟨[], by simp [walk, totalSize, groupCount]⟩
  | cons t rest ih =>
    unfold walk
    split
    · exact ⟨[], by simp [totalSize, groupCount]⟩
    · split
      · obtain ⟨sel, h1, h2, h3, h4, h5, h6⟩ := ih st
        exact ⟨sel, h1, h2.cons t, h3, h4, h5, h6⟩
      · rename_i hfree hrem
        obtain ⟨sel, h1, h2, h3, h4, h5, h6⟩ := ih
          { toRemove := st.toRemove ++ [t]
            totalFreed := st.totalFreed + t.TotalSize
            remainingMap := setKey st.remainingMap t.NormalizedTracker
              (st.remainingMap t.NormalizedTracker - 1) }
        have hrem2 : m < st.remainingMap t.NormalizedTracker := by omega
        have hcnt : ∀ g, (walk m need rest
            { toRemove := st.toRemove ++ [t]
              totalFreed := st.totalFreed + t.TotalSize
              remainingMap := setKey st.remainingMap t.NormalizedTracker
                (st.remainingMap t.NormalizedTracker - 1) }).remainingMap g
              = st.remainingMap g - (groupCount g (t :: sel) : Int) := by
          intro g
          rw [h4 g, groupCount_cons]
          simp only [setKey]
          by_cases hg : g = t.NormalizedTracker
          · subst hg
            simp
            omega
          · have hg2 : ¬ t.NormalizedTracker = g := fun e => hg e.symm
            simp [hg, hg2]
        refine ⟨t :: sel, ?_, h2.cons₂ t, ?_, hcnt, ?_, ?_⟩
        · rw [h1]
          simp
        · rw [h3]
          simp [totalSize]
          omega
        · intro u hu
          rcases List.mem_cons.mp hu with hut | hus
          · subst hut
            by_cases hz : groupCount u.NormalizedTracker sel = 0
            · rw [hcnt, groupCount_cons, hz]
              simp
              omega
            · obtain ⟨v, hv, hvg⟩ :=
                (groupCount_pos_iff u.NormalizedTracker sel).mp (Nat.pos_of_ne_zero hz)
              have h5v := h5 v hv
              rw [hvg] at h5v
              exact h5v
          · exact h5 u hus
        · intro u hu
          rcases List.mem_cons.mp hu with hut | hus
          · subst hut
            exact hrem2
          · have h6u := h6 u hus
            simp only [setKey] at h6u
            by_cases hg : u.NormalizedTracker = t.NormalizedTracker
            · rw [if_pos hg] at h6u
              rw [hg]
              omega
            · rw [if_neg hg] at h6u
              exact h6u

theorem initState_eq (S : AgeSort) (torrents : List Torrent) :
    initState S torrents =
      { toRemove := [], totalFreed := 0,
        remainingMap := fun g => (groupCount g torrents : Int) } := by
  have h : (initState S torrents).remainingMap = fun g => (groupCount g torrents : Int) :=
    funext (initState_remaining S torrents)
  simp only [initState] at h ⊢
  rw [h]

theorem groupCount_perm {l₁ l₂ : List Torrent} (h : l₁.Perm l₂) (g : String) :
    groupCount g l₁ = groupCount g l₂ :=
  h.countP_eq _

/-- What the selection loop establishes for the value returned by
`selectTorrentsToRemove`. -/
theorem selection_spec (S : AgeSort) (m : Int) (torrents : List Torrent) (need : Int) :
    (selection S m torrents need).Sublist (S.run torrents) ∧
    (selectState S m torrents need).totalFreed = totalSize (selection S m torrents need) ∧
    (∀ g, (selectState S m torrents need).remainingMap g =
      remainingCount S m torrents need g) ∧
    (∀ t ∈ selection S m torrents need,
      m ≤ remainingCount S m torrents need t.NormalizedTracker) ∧
    (∀ t ∈ selection S m torrents need, m < (groupCount t.NormalizedTracker torrents : Int)) := by
  obtain ⟨sel, h1, h2, h3, h4, h5, h6⟩ := walk_spec m need (S.run torrents) (initState S torrents)
  have hsel : selection S m torrents need = sel := by
    unfold selection selectState
    rw [h1]
    simp [initState]
  have hrem : ∀ g, (selectState S m torrents need).remainingMap g =
      remainingCount S m torrents need g := by
    intro g
    unfold remainingCount
    rw [hsel]
    simp only [selectState]
    rw [h4 g, initState_remaining]
  refine ⟨hsel ▸ h2, ?_, hrem, ?_, ?_⟩
  · rw [hsel]
    simpa [selectState, initState] using h3
  · intro t ht
    rw [← hrem]
    exact h5 t (hsel ▸ ht)
  · intro t ht
    have := h6 t (hsel ▸ ht)
    rwa [initState_remaining] at this

theorem selection_subset (S : AgeSort) (m : Int) (torrents : List Torrent) (need : Int) :
    ∀ t ∈ selection S m torrents need, t ∈ torrents := fun _ ht =>
  (S.perm torrents).subset ((selection_spec S m torrents need).1.subset ht)

/-! ## Sorting: uniqueness of the walked order when the timestamps are distinct -/

theorem run_strict (S : AgeSort) (l : List Torrent)
    (hd : (l.map (fun t => t.AddedDate)).Nodup) :
    (S.run l).Pairwise (fun a b => a.AddedDate < b.AddedDate) := by
  have hnd : ((S.run l).map (fun t => t.AddedDate)).Nodup :=
    ((S.perm l).map _).nodup_iff.mpr hd
  have hne : (S.run l).Pairwise (fun a b => a.AddedDate ≠ b.AddedDate) := by
    simpa [List.Nodup, List.pairwise_map] using hnd
  refine ((S.sorted l).and hne).imp ?_
  intro a b hab
  have h1 := hab.1
  have h2 := hab.2
  simp only [TorrentsByAge.Less, decide_eq_false_iff_not] at h1
  omega

theorem strict_sorted_unique {l₁ l₂ : List Torrent} (hp : l₁.Perm l₂)
    (h₁ : l₁.Pairwise (fun a b => a.AddedDate < b.AddedDate))
    (h₂ : l₂.Pairwise (fun a b => a.AddedDate < b.AddedDate)) : l₁ = l₂ := by
  haveI : IsAntisymm Torrent (fun a b => a.AddedDate < b.AddedDate) :=
    ⟨fun a b hab hba => absurd hab (by omega)⟩
  exact List.eq_of_perm_of_sorted hp h₁ h₂

theorem run_unique (S S' : AgeSort) {l₁ l₂ : List Torrent} (hp : l₁.Perm l₂)
    (hd : (l₁.map (fun t => t.AddedDate)).Nodup) : S.run l₁ = S'.run l₂ := by
  have hd2 : (l₂.map (fun t => t.AddedDate)).Nodup := (hp.map _).nodup_iff.mp hd
  exact strict_sorted_unique (((S.perm l₁).trans hp).trans (S'.perm l₂).symm)
    (run_strict S l₁ hd) (run_strict S' l₂ hd2)

theorem run_eq_self (S : AgeSort) (l : List Torrent)
    (h : l.Pairwise (fun a b => a.AddedDate < b.AddedDate)) : S.run l = l := by
  have hd : (l.map (fun t => t.AddedDate)).Nodup := by
    simp only [List.Nodup, List.pairwise_map]
    exact h.imp (fun hab => by omega)
  exact strict_sorted_unique (S.perm l) (run_strict S l hd) h

/-! ## Claims on the selection -/

/-- C1 (as stated, refuted): with `minTorrentsPerTracker = 2` and a listing whose group B
holds one item, nothing is selected and group B's post-selection remaining count is 1,
which is less than the floor 2. -/
theorem c1_floor_counterexample :
    groupCount "B" loneItems = 1 ∧
    selectTorrentsToRemove goSort 2 loneItems (15 * gib) = .ok [] ∧
    remainingCount goSort 2 loneItems (15 * gib) "B" = 1 ∧
    ¬ ((2 : Int) ≤ remainingCount goSort 2 loneItems (15 * gib) "B") :=
  ⟨by decide, rfl, by decide, by decide⟩

/-- C1 (amended): for every listing, deficit and floor, every group whose item count in the
listing is at least `minTorrentsPerTracker` keeps a post-selection remaining count that is
not less than `minTorrentsPerTracker`. -/
theorem c1_remaining_ge_floor (S : AgeSort) (m : Int) (torrents : List Torrent) (need : Int)
    (g : String) (hg : m ≤ (groupCount g torrents : Int)) :
    m ≤ remainingCount S m torrents need g := by
  by_cases hz : groupCount g (selection S m torrents need) = 0
  · unfold remainingCount
    rw [hz]
    simpa using hg
  · obtain ⟨t, ht, htg⟩ :=
      (groupCount_pos_iff g (selection S m torrents need)).mp (Nat.pos_of_ne_zero hz)
    have h := (selection_spec S m torrents need).2.2.2.1 t ht
    rwa [htg] at h

theorem c1_remaining_ge_floor_witness :
    (1 : Int) ≤ (groupCount "A" scenarioItems : Int) ∧
    (1 : Int) ≤ remainingCount goSort 1 scenarioItems (15 * gib) "A" :=
  ⟨by decide, c1_remaining_ge_floor goSort 1 scenarioItems (15 * gib) "A" (by decide)⟩

/-- C2: when every group of the listing has at most `minTorrentsPerTracker` items,
`selectTorrentsToRemove` returns the empty selection for every `spaceNeeded` (so it does for
the empty listing); and no item of a group whose count is `<= minTorrentsPerTracker` is in
the selection, whatever the other groups are. -/
theorem c2_groups_at_floor_untouched (S : AgeSort) (m : Int) (torrents : List Torrent)
    (need : Int) :
    ((∀ t ∈ torrents, (groupCount t.NormalizedTracker torrents : Int) ≤ m) →
      selectTorrentsToRemove S m torrents need = .ok []) ∧
    selectTorrentsToRemove S m [] need = .ok [] ∧
    (∀ g, (groupCount g torrents : Int) ≤ m →
      ∀ t ∈ selection S m torrents need, t.NormalizedTracker ≠ g) := by
  have key : ∀ (ts : List Torrent) (g : String), (groupCount g ts : Int) ≤ m →
      ∀ t ∈ selection S m ts need, t.NormalizedTracker ≠ g := by
    intro ts g hg t ht htg
    have h := (selection_spec S m ts need).2.2.2.2 t ht
    rw [htg] at h
    omega
  have empty : ∀ ts : List Torrent,
      (∀ t ∈ ts, (groupCount t.NormalizedTracker ts : Int) ≤ m) →
      selectTorrentsToRemove S m ts need = .ok [] := by
    intro ts hall
    have hnil : selection S m ts need = [] := by
      apply List.eq_nil_iff_forall_not_mem.mpr
      intro t ht
      exact key ts t.NormalizedTracker (hall t (selection_subset S m ts need t ht)) t ht rfl
    simp only [selectTorrentsToRemove]
    exact congrArg Except.ok hnil
  exact ⟨empty torrents, empty [] (by simp), key torrents⟩

theorem c2_groups_at_floor_untouched_witness :
    (∀ t ∈ loneItems, (groupCount t.NormalizedTracker loneItems : Int) ≤ 1) ∧
    selectTorrentsToRemove goSort 1 loneItems (15 * gib) = .ok [] :=
  ⟨by decide, (c2_groups_at_floor_untouched goSort 1 loneItems (15 * gib)).1 (by decide)⟩

/-- C4: in the three-item scenario (items 1 and 2 of group A, item 3 of group B, 10 GiB
each, added at 1, 2, 3) with floor 1 and a deficit of 15 GiB, `selectTorrentsToRemove`
returns exactly item 1, for every conforming sort; the bytes freed are 10 GiB, less than
the deficit. -/
theorem c4_scenario (S : AgeSort) :
    selectTorrentsToRemove S 1 scenarioItems (15 * gib) = .ok [mkTorrent 1 (10 * gib) "A" 1] ∧
    (selectState S 1 scenarioItems (15 * gib)).totalFreed = 10 * gib ∧
    totalSize [mkTorrent 1 (10 * gib) "A" 1] = 10 * gib ∧
    10 * gib < 15 * gib := by
  have hrun : S.run scenarioItems = scenarioItems := run_eq_self S scenarioItems (by decide)
  have hst : selectState S 1 scenarioItems (15 * gib) =
      walk 1 (15 * gib) scenarioItems
        { toRemove := [], totalFreed := 0,
          remainingMap := fun g => (groupCount g scenarioItems : Int) } := by
    unfold selectState
    rw [hrun, initState_eq]
  refine ⟨?_, ?_, by decide, by decide⟩
  · unfold selectTorrentsToRemove
    rw [hst]
    rfl
  · rw [hst]
    rfl

/-- C5 (as stated, refuted): two items of group A share the added-timestamp 5.  Listed as
id 2, id 1, the order walked is id 2, id 1 (the sort never swaps them, `Less` being false
both ways) and, one of them being selectable, the selection is the item with id 2; listed
as id 1, id 2, the selection is the item with id 1.  So the smaller id is not placed first
and the selection depends on the input order. -/
theorem c5_tie_counterexample :
    tieItems.Perm tieItemsSwapped ∧
    TorrentsByAge.Less (mkTorrent 1 10 "A" 5) (mkTorrent 2 10 "A" 5) = false ∧
    goSort.run tieItems = [mkTorrent 2 10 "A" 5, mkTorrent 1 10 "A" 5] ∧
    selectTorrentsToRemove goSort 1 tieItems 5 = .ok [mkTorrent 2 10 "A" 5] ∧
    selectTorrentsToRemove goSort 1 tieItemsSwapped 5 = .ok [mkTorrent 1 10 "A" 5] :=
  ⟨List.Perm.swap _ _ _, by decide, by decide, rfl, rfl⟩

/-- C5 (amended): the order walked by `selectTorrentsToRemove` is ascending in `AddedDate`
alone (`Less` compares nothing else, so ties are not broken by id); when the added-timestamps
of the listing are pairwise distinct, the order walked and the selection are the same for
every input order of the listing and every conforming sort. -/
theorem c5_order_by_age_only (S S' : AgeSort) (m need : Int) (l₁ l₂ : List Torrent)
    (hp : l₁.Perm l₂) (hd : (l₁.map (fun t => t.AddedDate)).Nodup) :
    (S.run l₁).Pairwise (fun a b => a.AddedDate ≤ b.AddedDate) ∧
    S.run l₁ = S'.run l₂ ∧
    selectTorrentsToRemove S m l₁ need = selectTorrentsToRemove S' m l₂ need := by
  have hrun : S.run l₁ = S'.run l₂ := run_unique S S' hp hd
  refine ⟨?_, hrun, ?_⟩
  · refine (S.sorted l₁).imp ?_
    intro a b hab
    simp only [TorrentsByAge.Less, decide_eq_false_iff_not] at hab
    omega
  · have hinit : initState S l₁ = initState S' l₂ := by
      rw [initState_eq, initState_eq]
      have : (fun g => (groupCount g l₁ : Int)) = fun g => (groupCount g l₂ : Int) :=
        funext (fun g => by rw [groupCount_perm hp g])
      rw [this]
    unfold selectTorrentsToRemove selectState
    rw [hrun, hinit]

theorem c5_order_by_age_only_witness :
    scenarioItems.reverse.Perm scenarioItems ∧
    (scenarioItems.reverse.map (fun t => t.AddedDate)).Nodup ∧
    (goSort.run scenarioItems.reverse).Pairwise (fun a b => a.AddedDate ≤ b.AddedDate) ∧
    goSort.run scenarioItems.reverse = goSort.run scenarioItems ∧
    selectTorrentsToRemove goSort 1 scenarioItems.reverse (15 * gib) =
      selectTorrentsToRemove goSort 1 scenarioItems (15 * gib) :=
  ⟨List.reverse_perm _, by decide,
    c5_order_by_age_only goSort goSort 1 (15 * gib) scenarioItems.reverse scenarioItems
      (List.reverse_perm _) (by decide)⟩

/-! ## The run: auxiliary facts -/

theorem foldl_size (l : List Torrent) (a : Int) :
    l.foldl (fun acc t => acc + t.TotalSize) a = a + totalSize l := by
  induction l generalizing a with
  | nil => simp [totalSize]
  | cons t ts ih =>
    rw [List.foldl_cons, ih]
    simp [totalSize]
    omega

theorem addToHistory_history (c : Cleaner) (t : Torrent) (reason : String) (now : Int) :
    (addToHistory c t reason now).history =
      (deletedOf t reason now :: c.history).take MaxHistorySize := by
  simp only [addToHistory, List.singleton_append]
  split
  · rfl
  · rename_i h
    rw [List.take_of_length_le (by omega)]

theorem addToHistory_config (c : Cleaner) (t : Torrent) (reason : String) (now : Int) :
    (addToHistory c t reason now).minFreeSpace = c.minFreeSpace ∧
    (addToHistory c t reason now).minTorrentsPerTracker = c.minTorrentsPerTracker ∧
    (addToHistory c t reason now).dryRun = c.dryRun := by
  simp [addToHistory]

/-- `Run` up to the end of the selection, when the free space `f` is below the target and
the listing succeeds. -/
theorem Run_below_target {σ : Type} (E : Env σ) (S : AgeSort) (c : Cleaner) (w : World σ)
    (f : Int) (s₁ s₂ : σ) (ts : List Torrent)
    (h₁ : E.GetFreeSpace w.store = (.ok f, s₁)) (hlt : f < c.minFreeSpace)
    (h₂ : E.GetTorrents s₁ = (.ok ts, s₂)) :
    Run E S c w =
      if (selection S c.minTorrentsPerTracker ts (c.minFreeSpace - f)).length = 0 then
        (.ok { CleanupResult.zero with InitialFreeSpace := f, FinalFreeSpace := f,
                                       NeedCleanup := true },
          c, { store := s₂, calls := w.calls ++ [Call.GetFreeSpace, Call.GetTorrents] })
      else
        applySelection E c
          { store := s₂, calls := w.calls ++ [Call.GetFreeSpace, Call.GetTorrents] }
          { CleanupResult.zero with InitialFreeSpace := f, FinalFreeSpace := f,
                                    NeedCleanup := true }
          (selection S c.minTorrentsPerTracker ts (c.minFreeSpace - f)) := by
  have hnot : ¬ f ≥ c.minFreeSpace := by omega
  simp [Run, callGetFreeSpace, callGetTorrents, h₁, h₂, hnot, selectTorrentsToRemove,
    selection]

/-- The result reported by `Run` after a non-empty selection, in either mode. -/
theorem applySelection_result {σ : Type} (E : Env σ) (c : Cleaner) (w : World σ)
    (result : CleanupResult) (sel : List Torrent) :
    ∃ r, (applySelection E c w result sel).1 = .ok r ∧
      r.RemovedTorrents = sel ∧
      r.RemovedCount = (sel.length : Int) ∧
      r.RemovedSize = result.RemovedSize + totalSize sel ∧
      r.InitialFreeSpace = result.InitialFreeSpace ∧
      r.NeedCleanup = result.NeedCleanup := by
  unfold applySelection
  simp only [foldl_size]
  split
  · exact ⟨_, rfl, rfl, rfl, rfl, rfl, rfl⟩
  · split
    · exact ⟨_, rfl, rfl, rfl, rfl, rfl, rfl⟩
    · exact ⟨_, rfl, rfl, rfl, rfl, rfl, rfl⟩

theorem applySelection_dry {σ : Type} (E : Env σ) (c : Cleaner) (w : World σ)
    (result : CleanupResult) (sel : List Torrent) (hdry : c.dryRun = true) :
    applySelection E c w result sel =
      (.ok { result with RemovedTorrents := sel, RemovedCount := (sel.length : Int),
                         RemovedSize := result.RemovedSize + totalSize sel }, c, w) := by
  unfold applySelection
  simp [foldl_size, hdry]

/-! ## Claims on the run and the history -/

/-- C6: when the store reports free space `f >= minFreeSpace`, `Run` returns without error
a result with `NeedCleanup = false`, no removed torrents, `RemovedCount = 0`,
`RemovedSize = 0` and `InitialFreeSpace = FinalFreeSpace = f`; the only client call it makes
is the one `GetFreeSpace` (no `GetTorrents`, no `RemoveTorrent`), and the cleaner, its
history included, is unchanged. -/
theorem c6_no_cleanup_needed {σ : Type} (E : Env σ) (S : AgeSort) (c : Cleaner) (w : World σ)
    (f : Int) (s₁ : σ) (h₁ : E.GetFreeSpace w.store = (.ok f, s₁))
    (hge : f ≥ c.minFreeSpace) :
    Run E S c w =
      (.ok { InitialFreeSpace := f, FinalFreeSpace := f, RemovedCount := 0, RemovedSize := 0,
             RemovedTorrents := [], NeedCleanup := false },
        c, { store := s₁, calls := w.calls ++ [Call.GetFreeSpace] }) := by
  simp [Run, callGetFreeSpace, h₁, hge, CleanupResult.zero]

theorem c6_no_cleanup_needed_witness :
    simEnv.GetFreeSpace simWorld.store = (.ok (100 * gib), simWorld.store) ∧
    100 * gib ≥ (New (50 * gib) 1 false).minFreeSpace ∧
    Run simEnv goSort (New (50 * gib) 1 false) simWorld =
      (.ok { InitialFreeSpace := 100 * gib, FinalFreeSpace := 100 * gib, RemovedCount := 0,
             RemovedSize := 0, RemovedTorrents := [], NeedCleanup := false },
        New (50 * gib) 1 false,
        { store := simWorld.store, calls := simWorld.calls ++ [Call.GetFreeSpace] }) :=
  ⟨rfl, by decide,
    c6_no_cleanup_needed simEnv goSort (New (50 * gib) 1 false) simWorld (100 * gib)
      simWorld.store rfl (by decide)⟩

/-- C9: for the same store responses (free space `f` below the target, the same listing),
`Run` with `dryRun = true` reports the same `RemovedTorrents`, `RemovedSize` and
`RemovedCount` as `Run` with `dryRun = false`; the dry run makes exactly the two calls
`GetFreeSpace`, `GetTorrents` (no `RemoveTorrent`, no second free-space query), leaves the
cleaner and its history as they were, and reports `FinalFreeSpace = InitialFreeSpace = f`. -/
theorem c9_dry_run_same_selection {σ : Type} (E : Env σ) (S : AgeSort) (c : Cleaner)
    (w : World σ) (f : Int) (s₁ s₂ : σ) (ts : List Torrent)
    (h₁ : E.GetFreeSpace w.store = (.ok f, s₁)) (hlt : f < c.minFreeSpace)
    (h₂ : E.GetTorrents s₁ = (.ok ts, s₂)) :
    ∃ rd ra,
      (Run E S { c with dryRun := true } w).1 = .ok rd ∧
      (Run E S { c with dryRun := false } w).1 = .ok ra ∧
      rd.RemovedTorrents = ra.RemovedTorrents ∧
      rd.RemovedTorrents = selection S c.minTorrentsPerTracker ts (c.minFreeSpace - f) ∧
      rd.RemovedSize = ra.RemovedSize ∧
      rd.RemovedCount = ra.RemovedCount ∧
      (Run E S { c with dryRun := true } w).2.2 =
        { store := s₂, calls := w.calls ++ [Call.GetFreeSpace, Call.GetTorrents] } ∧
      (Run E S { c with dryRun := true } w).2.1 = { c with dryRun := true } ∧
      (Run E S { c with dryRun := true } w).2.1.history = c.history ∧
      rd.InitialFreeSpace = f ∧
      rd.FinalFreeSpace = rd.InitialFreeSpace := by
  rw [Run_below_target E S { c with dryRun := true } w f s₁ s₂ ts h₁ hlt h₂,
    Run_below_target E S { c with dryRun := false } w f s₁ s₂ ts h₁ hlt h₂]
  simp only []
  by_cases hlen : (selection S c.minTorrentsPerTracker ts (c.minFreeSpace - f)).length = 0
  · rw [if_pos hlen, if_pos hlen]
    have hnil := List.length_eq_zero.mp hlen
    exact ⟨_, _, rfl, rfl, rfl, by simp [CleanupResult.zero, hnil], rfl, rfl, rfl, rfl, rfl,
      rfl, rfl⟩
  · rw [if_neg hlen, if_neg hlen]
    obtain ⟨ra, hra, hsel, hcount, hsize, -, -⟩ := applySelection_result E
      { c with dryRun := false }
      { store := s₂, calls := w.calls ++ [Call.GetFreeSpace, Call.GetTorrents] }
      { CleanupResult.zero with InitialFreeSpace := f, FinalFreeSpace := f,
                                NeedCleanup := true }
      (selection S c.minTorrentsPerTracker ts (c.minFreeSpace - f))
    rw [applySelection_dry E { c with dryRun := true } _ _ _ rfl]
    exact ⟨_, ra, rfl, hra, hsel.symm, rfl, hsize.symm, hcount.symm, rfl, rfl, rfl, rfl, rfl⟩

theorem c9_dry_run_same_selection_witness :
    simEnv.GetFreeSpace simWorld.store = (.ok (100 * gib), simWorld.store) ∧
    100 * gib < (New (110 * gib) 1 false).minFreeSpace ∧
    simEnv.GetTorrents simWorld.store = (.ok scenarioItems, simWorld.store) ∧
    ∃ rd ra,
      (Run simEnv goSort { New (110 * gib) 1 false with dryRun := true } simWorld).1 = .ok rd ∧
      (Run simEnv goSort { New (110 * gib) 1 false with dryRun := false } simWorld).1
        = .ok ra ∧
      rd.RemovedTorrents = ra.RemovedTorrents ∧
      rd.RemovedTorrents = selection goSort (New (110 * gib) 1 false).minTorrentsPerTracker
        scenarioItems ((New (110 * gib) 1 false).minFreeSpace - 100 * gib) ∧
      rd.RemovedSize = ra.RemovedSize ∧
      rd.RemovedCount = ra.RemovedCount ∧
      (Run simEnv goSort { New (110 * gib) 1 false with dryRun := true } simWorld).2.2 =
        { store := simWorld.store,
          calls := simWorld.calls ++ [Call.GetFreeSpace, Call.GetTorrents] } ∧
      (Run simEnv goSort { New (110 * gib) 1 false with dryRun := true } simWorld).2.1 =
        { New (110 * gib) 1 false with dryRun := true } ∧
      (Run simEnv goSort { New (110 * gib) 1 false with dryRun := true } simWorld).2.1.history
        = (New (110 * gib) 1 false).history ∧
      rd.InitialFreeSpace = 100 * gib ∧
      rd.FinalFreeSpace = rd.InitialFreeSpace :=
  ⟨rfl, by decide, rfl,
    c9_dry_run_same_selection simEnv goSort (New (110 * gib) 1 false) simWorld (100 * gib)
      simWorld.store simWorld.store scenarioItems rfl (by decide) rfl⟩

/-! ## The history: auxiliary facts -/

theorem HistoryWrite.apply_history (c : Cleaner) (op : HistoryWrite) :
    (op.apply c).history = (op.entry :: c.history).take MaxHistorySize := by
  cases op with
  | add t reason now => exact addToHistory_history c t reason now
  | manual id name tracker size now =>
    simp only [HistoryWrite.apply, AddManualDeletion, addToHistory_history]
    rfl

theorem take_append_take {α : Type} (n : Nat) (A B : List α) :
    (A ++ B.take n).take n = (A ++ B).take n := by
  rw [List.take_append_eq_append_take, List.take_append_eq_append_take, List.take_take]
  congr 2
  omega

theorem applyWrites_history (c : Cleaner) (ops : List HistoryWrite)
    (hc : c.history.length ≤ MaxHistorySize) :
    (applyWrites c ops).history =
      ((ops.map HistoryWrite.entry).reverse ++ c.history).take MaxHistorySize := by
  induction ops generalizing c with
  | nil => simp [applyWrites, List.take_of_length_le hc]
  | cons op ops ih =>
    have hlen : (op.apply c).history.length ≤ MaxHistorySize := by
      rw [HistoryWrite.apply_history]
      exact List.length_take_le _ _
    have := ih (op.apply c) hlen
    simp only [applyWrites, List.foldl_cons] at this ⊢
    rw [this, HistoryWrite.apply_history, take_append_take]
    simp

/-! ## Claims on the history -/

/-- C7: starting from the empty history, after any sequence of `addToHistory` and
`AddManualDeletion` calls the history holds at most 50 entries; after 51 such calls its
length is exactly 50, it is the entries of the calls 2 to 51 latest first (the entry of the
first call has been cut off, and is not in the history unless a later call built an equal
entry), and the entry of the last call is at index 0. -/
theorem c7_history_bounded (a b : Int) (d : Bool) (ops : List HistoryWrite) :
    (applyWrites (New a b d) ops).history.length ≤ 50 ∧
    (ops.length = 51 →
      (applyWrites (New a b d) ops).history.length = 50 ∧
      (applyWrites (New a b d) ops).history = ((ops.drop 1).map HistoryWrite.entry).reverse ∧
      (applyWrites (New a b d) ops).history[0]? = (ops.map HistoryWrite.entry).getLast? ∧
      (∀ e, (ops.map HistoryWrite.entry).head? = some e →
        e ∉ (ops.drop 1).map HistoryWrite.entry →
        e ∉ (applyWrites (New a b d) ops).history)) := by
  have hist := applyWrites_history (New a b d) ops (by simp [New])
  simp only [New, List.append_nil, MaxHistorySize] at hist
  refine ⟨?_, ?_⟩
  · simp only [New]
    rw [hist]
    exact List.length_take_le _ _
  · intro hlen
    simp only [New]
    rw [hist]
    cases ops with
    | nil => simp at hlen
    | cons op rest =>
      have hrest : rest.length = 50 := by simpa using hlen
      have htake : ((List.map HistoryWrite.entry (op :: rest)).reverse).take 50 =
          (rest.map HistoryWrite.entry).reverse := by
        rw [List.map_cons, List.reverse_cons, List.take_append_eq_append_take]
        simp [hrest]
      rw [htake]
      refine ⟨by simp [hrest], by simp, ?_, ?_⟩
      · cases hr : (rest.map HistoryWrite.entry).reverse with
        | nil =>
          have : rest.length = 0 := by
            have := congrArg List.length hr
            simpa using this
          omega
        | cons x xs =>
          have hrev := congrArg List.reverse hr
          rw [List.reverse_reverse] at hrev
          rw [List.map_cons, hrev, List.reverse_cons, ← List.cons_append,
            List.getLast?_concat]
          simp
      · intro e _ hnot hmem
        exact hnot (by simpa using hmem)

theorem c7_history_bounded_witness :
    fiftyOneWrites.length = 51 ∧
    (applyWrites (New 0 2 false) fiftyOneWrites).history.length = 50 ∧
    (applyWrites (New 0 2 false) fiftyOneWrites).history =
      ((fiftyOneWrites.drop 1).map HistoryWrite.entry).reverse ∧
    (applyWrites (New 0 2 false) fiftyOneWrites).history[0]? =
      (fiftyOneWrites.map HistoryWrite.entry).getLast? ∧
    (∀ e, (fiftyOneWrites.map HistoryWrite.entry).head? = some e →
      e ∉ (fiftyOneWrites.drop 1).map HistoryWrite.entry →
      e ∉ (applyWrites (New 0 2 false) fiftyOneWrites).history) :=
  ⟨by rfl, (c7_history_bounded 0 2 false fiftyOneWrites).2 (by rfl)⟩

/-- C8: `GetHistory` returns the stored entries latest first and does not write the
cleaner: after the writes `e1 .. en`, in this order, on an empty history it returns the
first 50 elements of `[en, .., e1]`; each write yields `take 50 (new :: old)`, so the older
entries that survive are the first 49 of the old history, in their order. -/
theorem c8_get_history_latest_first (a b : Int) (d : Bool) (ops : List HistoryWrite)
    (c : Cleaner) (op : HistoryWrite) :
    (GetHistory (applyWrites (New a b d) ops)).1 =
      ((ops.map HistoryWrite.entry).reverse).take 50 ∧
    (GetHistory c).1 = c.history ∧
    (GetHistory c).2 = c ∧
    (GetHistory (op.apply c)).1 = (op.entry :: c.history).take 50 ∧
    (GetHistory (op.apply c)).1.head? = some op.entry ∧
    (GetHistory (op.apply c)).1.tail = c.history.take 49 := by
  have hist := applyWrites_history (New a b d) ops (by simp [New])
  simp only [New, List.append_nil, MaxHistorySize] at hist
  have hop := HistoryWrite.apply_history c op
  simp only [MaxHistorySize] at hop
  refine ⟨?_, rfl, rfl, hop, ?_, ?_⟩
  · simpa [GetHistory, New] using hist
  · simp [GetHistory, hop]
  · simp [GetHistory, hop]

/-! ## The reason tags of the history -/

theorem applySelection_cleaner {σ : Type} (E : Env σ) (c : Cleaner) (w : World σ)
    (result : CleanupResult) (sel : List Torrent) :
    (applySelection E c w result sel).2.1 =
      if c.dryRun then c else (removeLoop E sel c w).1 := by
  unfold applySelection
  simp only []
  split
  · rfl
  · split <;> rfl

theorem Run_cleaner {σ : Type} (E : Env σ) (S : AgeSort) (c : Cleaner) (w : World σ) :
    (Run E S c w).2.1 = c ∨ ∃ sel w₂, (Run E S c w).2.1 = (removeLoop E sel c w₂).1 := by
  unfold Run
  split
  · exact Or.inl rfl
  · simp only []
    split
    · exact Or.inl rfl
    · split
      · exact Or.inl rfl
      · split
        · exact Or.inl rfl
        · split
          · exact Or.inl rfl
          · rw [applySelection_cleaner]
            split
            · exact Or.inl rfl
            · exact Or.inr ⟨_, _, rfl⟩

theorem addToHistory_reasons (c : Cleaner) (t : Torrent) (reason : String) (now : Int)
    (hr : reason = "auto" ∨ reason = "manual")
    (hc : ∀ e ∈ c.history, e.Reason = "auto" ∨ e.Reason = "manual") :
    ∀ e ∈ (addToHistory c t reason now).history, e.Reason = "auto" ∨ e.Reason = "manual" := by
  intro e he
  rw [addToHistory_history] at he
  rcases List.mem_cons.mp (List.mem_of_mem_take he) with h | h
  · rw [h]
    exact hr
  · exact hc e h

theorem removeLoop_reasons {σ : Type} (E : Env σ) (sel : List Torrent) (c : Cleaner)
    (w : World σ) (hc : ∀ e ∈ c.history, e.Reason = "auto" ∨ e.Reason = "manual") :
    ∀ e ∈ (removeLoop E sel c w).1.history, e.Reason = "auto" ∨ e.Reason = "manual" := by
  induction sel generalizing c w with
  | nil => exact hc
  | cons t rest ih =>
    unfold removeLoop
    split
    · exact ih c _ hc
    · exact ih _ _ (addToHistory_reasons c t "auto" _ (Or.inl rfl) hc)

theorem CleanerOp.apply_reasons {σ : Type} (E : Env σ) (S : AgeSort) (c : Cleaner)
    (op : CleanerOp σ) (hc : ∀ e ∈ c.history, e.Reason = "auto" ∨ e.Reason = "manual") :
    ∀ e ∈ (op.apply E S c).history, e.Reason = "auto" ∨ e.Reason = "manual" := by
  cases op with
  | run w =>
    simp only [CleanerOp.apply]
    rcases Run_cleaner E S c w with h | ⟨sel, w₂, h⟩
    · rw [h]
      exact hc
    · rw [h]
      exact removeLoop_reasons E sel c w₂ hc
  | manual id name tracker size now =>
    exact addToHistory_reasons c _ "manual" now (Or.inr rfl) hc

/-- C10: a manual deletion followed by a run in apply mode that selects one item and
removes it successfully leaves a history whose first entry is that item's, with reason
"auto", and whose second entry is the manual deletion's, with reason "manual", each with
the id, name, size and tracker of its item; and after any sequence of runs and manual
deletions on a new cleaner, every history entry's reason is "auto" or "manual". -/
theorem c10_manual_then_auto {σ : Type} (E : Env σ) (S : AgeSort) :
    (∀ (c : Cleaner) (w : World σ) (id : Int) (name tracker : String) (size now f : Int)
        (s₁ s₂ s₃ : σ) (ts : List Torrent) (t : Torrent),
      c.dryRun = false →
      E.GetFreeSpace w.store = (.ok f, s₁) →
      f < c.minFreeSpace →
      E.GetTorrents s₁ = (.ok ts, s₂) →
      selection S c.minTorrentsPerTracker ts (c.minFreeSpace - f) = [t] →
      E.RemoveTorrent t.ID true s₂ = (.ok (), s₃) →
      (Run E S (AddManualDeletion c id name tracker size now) w).2.1.history.take 2 =
        [ { ID := t.ID, Name := t.Name, Size := t.TotalSize, Tracker := t.NormalizedTracker,
            DeletedAt := E.Now s₃, Reason := "auto" },
          { ID := id, Name := name, Size := size, Tracker := tracker, DeletedAt := now,
            Reason := "manual" } ]) ∧
    (∀ (a b : Int) (d : Bool) (ops : List (CleanerOp σ)),
      ∀ e ∈ (ops.foldl (CleanerOp.apply E S) (New a b d)).history,
        e.Reason = "auto" ∨ e.Reason = "manual") := by
  refine ⟨?_, ?_⟩
  · intro c w id name tracker size now f s₁ s₂ s₃ ts t hdry h₁ hlt h₂ hsel h₃
    have hcfg := addToHistory_config c
      { Torrent.zero with ID := id, Name := name, NormalizedTracker := tracker,
                          TotalSize := size } "manual" now
    rw [Run_below_target E S (AddManualDeletion c id name tracker size now) w f s₁ s₂ ts h₁
      (by simpa [AddManualDeletion, hcfg.1] using hlt) h₂]
    simp only [AddManualDeletion, hcfg.1, hcfg.2.1, hsel]
    rw [if_neg (by simp), applySelection_cleaner, hcfg.2.2, hdry]
    simp only [Bool.false_eq_true, if_false, removeLoop, callRemoveTorrent, h₃]
    rw [addToHistory_history, addToHistory_history]
    simp [MaxHistorySize, deletedOf, Torrent.zero, List.take_take]
  · intro a b d ops
    have key : ∀ (ops : List (CleanerOp σ)) (c : Cleaner),
        (∀ e ∈ c.history, e.Reason = "auto" ∨ e.Reason = "manual") →
        ∀ e ∈ (ops.foldl (CleanerOp.apply E S) c).history,
          e.Reason = "auto" ∨ e.Reason = "manual" := by
      intro ops
      induction ops with
      | nil => intro c hc; exact hc
      | cons op rest ih =>
        intro c hc
        exact ih _ (CleanerOp.apply_reasons E S c op hc)
    exact key ops (New a b d) (by simp [New])

theorem c10_manual_then_auto_witness :
    (New (110 * gib) 1 false).dryRun = false ∧
    simEnv.GetFreeSpace simWorld.store = (.ok (100 * gib), simWorld.store) ∧
    100 * gib < (New (110 * gib) 1 false).minFreeSpace ∧
    simEnv.GetTorrents simWorld.store = (.ok scenarioItems, simWorld.store) ∧
    selection goSort (New (110 * gib) 1 false).minTorrentsPerTracker scenarioItems
      ((New (110 * gib) 1 false).minFreeSpace - 100 * gib) = [mkTorrent 1 (10 * gib) "A" 1] ∧
    simEnv.RemoveTorrent (mkTorrent 1 (10 * gib) "A" 1).ID true simWorld.store =
      (.ok (), (simEnv.RemoveTorrent 1 true simWorld.store).2) ∧
    (Run simEnv goSort (AddManualDeletion (New (110 * gib) 1 false) 9 "gone" "B" 5 999)
        simWorld).2.1.history.take 2 =
      [ { ID := 1, Name := "", Size := 10 * gib, Tracker := "A", DeletedAt := 1001,
          Reason := "auto" },
        { ID := 9, Name := "gone", Size := 5, Tracker := "B", DeletedAt := 999,
          Reason := "manual" } ] :=
  ⟨rfl, rfl, by decide, rfl, by decide, rfl,
    (c10_manual_then_auto simEnv goSort).1 (New (110 * gib) 1 false) simWorld 9 "gone" "B" 5 999
      (100 * gib) simWorld.store simWorld.store (simEnv.RemoveTorrent 1 true simWorld.store).2
      scenarioItems (mkTorrent 1 (10 * gib) "A" 1) rfl rfl (by decide) rfl (by decide) rfl⟩

/-! ## The run: the paths through it -/

theorem Run_free_error {σ : Type} (E : Env σ) (S : AgeSort) (c : Cleaner) (w : World σ)
    (e : String) (h₁ : (E.GetFreeSpace w.store).1 = .error e) :
    Run E S c w =
      (.error ("failed to get free space: " ++ e), c,
        { store := (E.GetFreeSpace w.store).2, calls := w.calls ++ [Call.GetFreeSpace] }) := by
  simp [Run, callGetFreeSpace, h₁]

theorem Run_list_error {σ : Type} (E : Env σ) (S : AgeSort) (c : Cleaner) (w : World σ)
    (f : Int) (e : String) (h₁ : (E.GetFreeSpace w.store).1 = .ok f)
    (hlt : f < c.minFreeSpace)
    (h₂ : (E.GetTorrents (E.GetFreeSpace w.store).2).1 = .error e) :
    Run E S c w =
      (.error ("failed to get torrents: " ++ e), c,
        { store := (E.GetTorrents (E.GetFreeSpace w.store).2).2,
          calls := w.calls ++ [Call.GetFreeSpace, Call.GetTorrents] }) := by
  have hnot : ¬ f ≥ c.minFreeSpace := by omega
  simp [Run, callGetFreeSpace, callGetTorrents, h₁, h₂, hnot]

theorem Run_above_target_ok {σ : Type} (E : Env σ) (S : AgeSort) (c : Cleaner) (w : World σ)
    (f : Int) (h₁ : (E.GetFreeSpace w.store).1 = .ok f) (hge : f ≥ c.minFreeSpace) :
    Run E S c w =
      (.ok { InitialFreeSpace := f, FinalFreeSpace := f, RemovedCount := 0, RemovedSize := 0,
             RemovedTorrents := [], NeedCleanup := false },
        c, { store := (E.GetFreeSpace w.store).2, calls := w.calls ++ [Call.GetFreeSpace] }) := by
  simp [Run, callGetFreeSpace, h₁, hge, CleanupResult.zero]

/-- Below the target with a listing, `Run` returns a result, whose removed torrents are the
selection. -/
theorem Run_below_target_ok {σ : Type} (E : Env σ) (S : AgeSort) (c : Cleaner) (w : World σ)
    (f : Int) (s₁ s₂ : σ) (ts : List Torrent)
    (h₁ : E.GetFreeSpace w.store = (.ok f, s₁)) (hlt : f < c.minFreeSpace)
    (h₂ : E.GetTorrents s₁ = (.ok ts, s₂)) :
    ∃ r, (Run E S c w).1 = .ok r ∧
      r.RemovedTorrents = selection S c.minTorrentsPerTracker ts (c.minFreeSpace - f) ∧
      r.RemovedCount =
        ((selection S c.minTorrentsPerTracker ts (c.minFreeSpace - f)).length : Int) ∧
      r.RemovedSize = totalSize (selection S c.minTorrentsPerTracker ts (c.minFreeSpace - f)) ∧
      r.InitialFreeSpace = f ∧ r.NeedCleanup = true := by
  rw [Run_below_target E S c w f s₁ s₂ ts h₁ hlt h₂]
  by_cases hlen : (selection S c.minTorrentsPerTracker ts (c.minFreeSpace - f)).length = 0
  · rw [if_pos hlen]
    have hnil := List.length_eq_zero.mp hlen
    exact ⟨_, rfl, by simp [CleanupResult.zero, hnil], by simp [CleanupResult.zero, hnil],
      by simp [CleanupResult.zero, hnil, totalSize], rfl, rfl⟩
  · rw [if_neg hlen]
    obtain ⟨r, hr, hsel, hcount, hsize, hinit, hneed⟩ := applySelection_result E c
      { store := s₂, calls := w.calls ++ [Call.GetFreeSpace, Call.GetTorrents] }
      { CleanupResult.zero with InitialFreeSpace := f, FinalFreeSpace := f,
                                NeedCleanup := true }
      (selection S c.minTorrentsPerTracker ts (c.minFreeSpace - f))
    exact ⟨r, hr, hsel, hcount, by simpa [CleanupResult.zero] using hsize, hinit, hneed⟩

theorem pair_eta {α β : Type} (p : α × β) (a : α) (h : p.1 = a) : p = (a, p.2) := by
  cases p
  simp only at h
  rw [h]

/-- C12: `Run` returns an error if and only if the first free-space query fails, or that
query answers a free space below the target and the listing fails; in every other case
(empty selection, target not reached, failed removals, failed last free-space query) it
returns a result. -/
theorem c12_error_iff {σ : Type} (E : Env σ) (S : AgeSort) (c : Cleaner) (w : World σ) :
    ((∃ e, (Run E S c w).1 = .error e) ↔
      ((∃ e, (E.GetFreeSpace w.store).1 = .error e) ∨
        (∃ f, (E.GetFreeSpace w.store).1 = .ok f ∧ f < c.minFreeSpace ∧
          ∃ e, (E.GetTorrents (E.GetFreeSpace w.store).2).1 = .error e))) ∧
    ((∃ r, (Run E S c w).1 = .ok r) ∨ (∃ e, (Run E S c w).1 = .error e)) := by
  cases h₁ : (E.GetFreeSpace w.store).1 with
  | error e =>
    rw [Run_free_error E S c w e h₁]
    exact ⟨⟨fun _ => Or.inl ⟨e, rfl⟩, fun _ => ⟨_, rfl⟩⟩, Or.inr ⟨_, rfl⟩⟩
  | ok f =>
    by_cases hge : f ≥ c.minFreeSpace
    · rw [Run_above_target_ok E S c w f h₁ hge]
      refine ⟨⟨fun h => ?_, fun h => ?_⟩, Or.inl ⟨_, rfl⟩⟩
      · obtain ⟨e, he⟩ := h
        cases he
      · rcases h with ⟨e, he⟩ | ⟨g, hg, hlt, -⟩
        · cases he
        · cases hg
          omega
    · have hlt : f < c.minFreeSpace := by omega
      cases h₂ : (E.GetTorrents (E.GetFreeSpace w.store).2).1 with
      | error e =>
        rw [Run_list_error E S c w f e h₁ hlt h₂]
        exact ⟨⟨fun _ => Or.inr ⟨f, rfl, hlt, e, rfl⟩, fun _ => ⟨_, rfl⟩⟩, Or.inr ⟨_, rfl⟩⟩
      | ok ts =>
        obtain ⟨r, hr, -⟩ := Run_below_target_ok E S c w f _ _ ts
          (pair_eta _ _ h₁) hlt (pair_eta _ _ h₂)
        rw [hr]
        refine ⟨⟨fun h => ?_, fun h => ?_⟩, Or.inl ⟨_, rfl⟩⟩
        · obtain ⟨e, he⟩ := h
          cases he
        · rcases h with ⟨e, he⟩ | ⟨g, -, -, e, he⟩
          · cases he
          · cases he

/-- C13: when `Run` returns an error, no result is returned, the cleaner and its history
are as before the call, and the calls made are the free-space query alone or the free-space
query and the listing: no `RemoveTorrent` call has been made. -/
theorem c13_error_is_atomic {σ : Type} (E : Env σ) (S : AgeSort) (c : Cleaner) (w : World σ)
    (e : String) (herr : (Run E S c w).1 = .error e) :
    (∀ r, (Run E S c w).1 ≠ .ok r) ∧
    (Run E S c w).2.1 = c ∧
    (Run E S c w).2.1.history = c.history ∧
    ((Run E S c w).2.2.calls = w.calls ++ [Call.GetFreeSpace] ∨
      (Run E S c w).2.2.calls = w.calls ++ [Call.GetFreeSpace, Call.GetTorrents]) ∧
    (∃ made, (Run E S c w).2.2.calls = w.calls ++ made ∧
      ∀ id d, Call.RemoveTorrent id d ∉ made) := by
  have hno : ∀ r, (Run E S c w).1 ≠ .ok r := by
    intro r hr
    rw [herr] at hr
    cases hr
  have hcalls : (Run E S c w).2.1 = c ∧
      ((Run E S c w).2.2.calls = w.calls ++ [Call.GetFreeSpace] ∨
        (Run E S c w).2.2.calls = w.calls ++ [Call.GetFreeSpace, Call.GetTorrents]) := by
    cases h₁ : (E.GetFreeSpace w.store).1 with
    | error e₁ =>
      rw [Run_free_error E S c w e₁ h₁]
      exact ⟨rfl, Or.inl rfl⟩
    | ok f =>
      by_cases hge : f ≥ c.minFreeSpace
      · rw [Run_above_target_ok E S c w f h₁ hge] at herr
        cases herr
      · have hlt : f < c.minFreeSpace := by omega
        cases h₂ : (E.GetTorrents (E.GetFreeSpace w.store).2).1 with
        | error e₂ =>
          rw [Run_list_error E S c w f e₂ h₁ hlt h₂]
          exact ⟨rfl, Or.inr rfl⟩
        | ok ts =>
          obtain ⟨r, hr, -⟩ := Run_below_target_ok E S c w f _ _ ts
            (pair_eta _ _ h₁) hlt (pair_eta _ _ h₂)
          exact absurd hr (hno r)
  refine ⟨hno, hcalls.1, by rw [hcalls.1], hcalls.2, ?_⟩
  rcases hcalls.2 with h2 | h2
  · exact ⟨_, h2, by simp⟩
  · exact ⟨_, h2, by simp⟩

theorem c13_error_is_atomic_witness :
    (Run simEnv goSort (New (110 * gib) 1 false) offlineWorld).1 =
      .error "failed to get free space: unreachable" ∧
    (∀ r, (Run simEnv goSort (New (110 * gib) 1 false) offlineWorld).1 ≠ .ok r) ∧
    (Run simEnv goSort (New (110 * gib) 1 false) offlineWorld).2.1 = New (110 * gib) 1 false ∧
    (Run simEnv goSort (New (110 * gib) 1 false) offlineWorld).2.1.history =
      (New (110 * gib) 1 false).history ∧
    ((Run simEnv goSort (New (110 * gib) 1 false) offlineWorld).2.2.calls =
        offlineWorld.calls ++ [Call.GetFreeSpace] ∨
      (Run simEnv goSort (New (110 * gib) 1 false) offlineWorld).2.2.calls =
        offlineWorld.calls ++ [Call.GetFreeSpace, Call.GetTorrents]) ∧
    (∃ made, (Run simEnv goSort (New (110 * gib) 1 false) offlineWorld).2.2.calls =
        offlineWorld.calls ++ made ∧
      ∀ id d, Call.RemoveTorrent id d ∉ made) :=
  ⟨rfl, c13_error_is_atomic simEnv goSort (New (110 * gib) 1 false) offlineWorld
    "failed to get free space: unreachable" rfl⟩

/-! ## The removal loop -/

theorem removeLoop_calls {σ : Type} (E : Env σ) (sel : List Torrent) (c : Cleaner)
    (w : World σ) :
    (removeLoop E sel c w).2.calls =
      w.calls ++ sel.map (fun t => Call.RemoveTorrent t.ID true) := by
  induction sel generalizing c w with
  | nil => simp [removeLoop]
  | cons t rest ih =>
    unfold removeLoop
    split
    · rw [ih]
      simp [callRemoveTorrent]
    · rw [ih]
      simp [callRemoveTorrent]

theorem removeLoop_history {σ : Type} (E : Env σ) (sel : List Torrent) (c : Cleaner)
    (w : World σ) (hc : c.history.length ≤ MaxHistorySize) :
    (removeLoop E sel c w).1.history =
      ((removedEntries E sel w).reverse ++ c.history).take MaxHistorySize := by
  induction sel generalizing c w with
  | nil => simp [removeLoop, removedEntries, List.take_of_length_le hc]
  | cons t rest ih =>
    unfold removeLoop removedEntries
    cases h : (E.RemoveTorrent t.ID true w.store).1 with
    | error e =>
      simp only [callRemoveTorrent, h]
      exact ih c _ hc
    | ok u =>
      simp only [callRemoveTorrent, h]
      have hlen : (addToHistory c t "auto"
          (E.Now (E.RemoveTorrent t.ID true w.store).2)).history.length ≤ MaxHistorySize := by
        rw [addToHistory_history]
        exact List.length_take_le _ _
      rw [ih _ _ hlen, addToHistory_history, take_append_take]
      simp [deletedOf]

theorem removedEntries_auto {σ : Type} (E : Env σ) (sel : List Torrent) (w : World σ) :
    ∀ e ∈ removedEntries E sel w, e.Reason = "auto" := by
  induction sel generalizing w with
  | nil => simp [removedEntries]
  | cons t rest ih =>
    unfold removedEntries
    split
    · intro e he
      rcases List.mem_cons.mp he with h | h
      · rw [h]
      · exact ih _ e h
    · exact ih _

theorem removedEntries_items {σ : Type} (E : Env σ) (sel : List Torrent) (w : World σ) :
    (removedEntries E sel w).map (fun e => (e.ID, e.Name, e.Size, e.Tracker)) =
      (removedItems E sel w.store).map
        (fun t => (t.ID, t.Name, t.TotalSize, t.NormalizedTracker)) := by
  induction sel generalizing w with
  | nil => simp [removedEntries, removedItems]
  | cons t rest ih =>
    unfold removedEntries removedItems
    cases h : (E.RemoveTorrent t.ID true w.store).1 with
    | error e => exact ih _
    | ok u =>
      simp only [List.map_cons]
      rw [ih]

/-- In apply mode, below the target and with a listing: the cleaner and the world after
`Run`. -/
theorem Run_apply_state {σ : Type} (E : Env σ) (S : AgeSort) (c : Cleaner) (w : World σ)
    (f : Int) (s₁ s₂ : σ) (ts : List Torrent) (hdry : c.dryRun = false)
    (h₁ : E.GetFreeSpace w.store = (.ok f, s₁)) (hlt : f < c.minFreeSpace)
    (h₂ : E.GetTorrents s₁ = (.ok ts, s₂))
    (hne : selection S c.minTorrentsPerTracker ts (c.minFreeSpace - f) ≠ []) :
    (Run E S c w).2.1 =
      (removeLoop E (selection S c.minTorrentsPerTracker ts (c.minFreeSpace - f)) c
        { store := s₂, calls := w.calls ++ [Call.GetFreeSpace, Call.GetTorrents] }).1 ∧
    (Run E S c w).2.2 =
      (callGetFreeSpace E
        (removeLoop E (selection S c.minTorrentsPerTracker ts (c.minFreeSpace - f)) c
          { store := s₂, calls := w.calls ++ [Call.GetFreeSpace, Call.GetTorrents] }).2).2 := by
  have hlen : ¬ (selection S c.minTorrentsPerTracker ts (c.minFreeSpace - f)).length = 0 :=
    fun h => hne (List.length_eq_zero.mp h)
  rw [Run_below_target E S c w f s₁ s₂ ts h₁ hlt h₂, if_neg hlen]
  unfold applySelection
  simp only [hdry, Bool.false_eq_true, if_false]
  split <;> exact ⟨rfl, rfl⟩

/-! ## Claims on the removals -/

/-- C14: in apply mode with the selection `s1 .. sn`, `Run` calls `RemoveTorrent(si, true)`
for every `si`, in order, whatever the earlier outcomes, between the listing and the last
free-space query; afterwards the history is the entries, all with reason "auto", of the
`si` whose removal succeeded, latest first, in front of the previous history, cut to 50.
An item whose removal failed has no entry. -/
theorem c14_removals_continue {σ : Type} (E : Env σ) (S : AgeSort) (c : Cleaner) (w : World σ)
    (f : Int) (s₁ s₂ : σ) (ts : List Torrent) (hdry : c.dryRun = false)
    (hhist : c.history.length ≤ MaxHistorySize)
    (h₁ : E.GetFreeSpace w.store = (.ok f, s₁)) (hlt : f < c.minFreeSpace)
    (h₂ : E.GetTorrents s₁ = (.ok ts, s₂)) :
    (Run E S c w).2.2.calls =
      w.calls ++ [Call.GetFreeSpace, Call.GetTorrents] ++
        (selection S c.minTorrentsPerTracker ts (c.minFreeSpace - f)).map
          (fun t => Call.RemoveTorrent t.ID true) ++
        (if selection S c.minTorrentsPerTracker ts (c.minFreeSpace - f) = [] then []
         else [Call.GetFreeSpace]) ∧
    (Run E S c w).2.1.history =
      ((removedEntries E (selection S c.minTorrentsPerTracker ts (c.minFreeSpace - f))
          { store := s₂, calls := w.calls ++ [Call.GetFreeSpace, Call.GetTorrents] }).reverse
        ++ c.history).take 50 ∧
    (∀ e ∈ removedEntries E (selection S c.minTorrentsPerTracker ts (c.minFreeSpace - f))
        { store := s₂, calls := w.calls ++ [Call.GetFreeSpace, Call.GetTorrents] },
      e.Reason = "auto") ∧
    (removedEntries E (selection S c.minTorrentsPerTracker ts (c.minFreeSpace - f))
        { store := s₂, calls := w.calls ++ [Call.GetFreeSpace, Call.GetTorrents] }).map
        (fun e => (e.ID, e.Name, e.Size, e.Tracker)) =
      (removedItems E (selection S c.minTorrentsPerTracker ts (c.minFreeSpace - f)) s₂).map
        (fun t => (t.ID, t.Name, t.TotalSize, t.NormalizedTracker)) := by
  refine ⟨?_, ?_, removedEntries_auto E _ _, removedEntries_items E _ _⟩
  · by_cases hnil : selection S c.minTorrentsPerTracker ts (c.minFreeSpace - f) = []
    · rw [Run_below_target E S c w f s₁ s₂ ts h₁ hlt h₂, hnil]
      simp
    · rw [(Run_apply_state E S c w f s₁ s₂ ts hdry h₁ hlt h₂ hnil).2, if_neg hnil]
      simp only [callGetFreeSpace]
      rw [removeLoop_calls]
  · by_cases hnil : selection S c.minTorrentsPerTracker ts (c.minFreeSpace - f) = []
    · rw [Run_below_target E S c w f s₁ s₂ ts h₁ hlt h₂, hnil]
      simp only [List.length_nil, if_true, removedEntries, List.reverse_nil, List.nil_append]
      exact (List.take_of_length_le hhist).symm
    · rw [(Run_apply_state E S c w f s₁ s₂ ts hdry h₁ hlt h₂ hnil).1]
      exact removeLoop_history E _ c _ hhist

theorem c14_removals_continue_witness :
    (New (125 * gib) 0 false).dryRun = false ∧
    (New (125 * gib) 0 false).history.length ≤ MaxHistorySize ∧
    simEnv.GetFreeSpace stubbornWorld.store = (.ok (100 * gib), stubbornWorld.store) ∧
    100 * gib < (New (125 * gib) 0 false).minFreeSpace ∧
    simEnv.GetTorrents stubbornWorld.store = (.ok scenarioItems, stubbornWorld.store) ∧
    selection goSort 0 scenarioItems (25 * gib) = scenarioItems ∧
    removedItems simEnv scenarioItems stubbornWorld.store =
      [mkTorrent 2 (10 * gib) "A" 2, mkTorrent 3 (10 * gib) "B" 3] ∧
    (Run simEnv goSort (New (125 * gib) 0 false) stubbornWorld).2.2.calls =
      stubbornWorld.calls ++ [Call.GetFreeSpace, Call.GetTorrents] ++
        (selection goSort (New (125 * gib) 0 false).minTorrentsPerTracker scenarioItems
          ((New (125 * gib) 0 false).minFreeSpace - 100 * gib)).map
          (fun t => Call.RemoveTorrent t.ID true) ++
        (if selection goSort (New (125 * gib) 0 false).minTorrentsPerTracker scenarioItems
            ((New (125 * gib) 0 false).minFreeSpace - 100 * gib) = [] then []
         else [Call.GetFreeSpace]) ∧
    (Run simEnv goSort (New (125 * gib) 0 false) stubbornWorld).2.1.history =
      ((removedEntries simEnv
          (selection goSort (New (125 * gib) 0 false).minTorrentsPerTracker scenarioItems
            ((New (125 * gib) 0 false).minFreeSpace - 100 * gib))
          { store := stubbornWorld.store,
            calls := stubbornWorld.calls ++ [Call.GetFreeSpace, Call.GetTorrents] }).reverse
        ++ (New (125 * gib) 0 false).history).take 50 :=
  ⟨rfl, by decide, rfl, by decide, rfl, by decide, by decide,
    (c14_removals_continue simEnv goSort (New (125 * gib) 0 false) stubbornWorld (100 * gib)
      stubbornWorld.store stubbornWorld.store scenarioItems rfl (by decide) rfl (by decide)
      rfl).1,
    (c14_removals_continue simEnv goSort (New (125 * gib) 0 false) stubbornWorld (100 * gib)
      stubbornWorld.store stubbornWorld.store scenarioItems rfl (by decide) rfl (by decide)
      rfl).2.1⟩

/-- C15: in apply mode, after the removals of a non-empty selection, `Run` queries the free
space again and returns a result without error whatever the answer: if that query fails,
`FinalFreeSpace` is the free space read before the removals (`InitialFreeSpace`); if it
succeeds, `FinalFreeSpace` is the value it returned. -/
theorem c15_final_free_space {σ : Type} (E : Env σ) (S : AgeSort) (c : Cleaner) (w : World σ)
    (f : Int) (s₁ s₂ : σ) (ts : List Torrent) (hdry : c.dryRun = false)
    (h₁ : E.GetFreeSpace w.store = (.ok f, s₁)) (hlt : f < c.minFreeSpace)
    (h₂ : E.GetTorrents s₁ = (.ok ts, s₂))
    (hne : selection S c.minTorrentsPerTracker ts (c.minFreeSpace - f) ≠ []) :
    ∃ r, (Run E S c w).1 = .ok r ∧
      r.InitialFreeSpace = f ∧
      (∀ e, (E.GetFreeSpace
          (removeLoop E (selection S c.minTorrentsPerTracker ts (c.minFreeSpace - f)) c
            { store := s₂, calls := w.calls ++ [Call.GetFreeSpace, Call.GetTorrents] }).2.store).1
          = .error e →
        r.FinalFreeSpace = r.InitialFreeSpace) ∧
      (∀ g, (E.GetFreeSpace
          (removeLoop E (selection S c.minTorrentsPerTracker ts (c.minFreeSpace - f)) c
            { store := s₂, calls := w.calls ++ [Call.GetFreeSpace, Call.GetTorrents] }).2.store).1
          = .ok g →
        r.FinalFreeSpace = g) := by
  have hlen : ¬ (selection S c.minTorrentsPerTracker ts (c.minFreeSpace - f)).length = 0 :=
    fun h => hne (List.length_eq_zero.mp h)
  rw [Run_below_target E S c w f s₁ s₂ ts h₁ hlt h₂, if_neg hlen]
  unfold applySelection
  simp only [hdry, Bool.false_eq_true, if_false, callGetFreeSpace]
  cases hq : (E.GetFreeSpace
      (removeLoop E (selection S c.minTorrentsPerTracker ts (c.minFreeSpace - f)) c
        { store := s₂, calls := w.calls ++ [Call.GetFreeSpace, Call.GetTorrents] }).2.store).1 with
  | error e =>
    refine ⟨_, rfl, rfl, fun _ _ => rfl, fun g hg => ?_⟩
    cases hg
  | ok g =>
    refine ⟨_, rfl, rfl, fun e he => ?_, fun g' hg => ?_⟩
    · cases he
    · cases hg
      rfl

theorem c15_final_free_space_witness :
    (New (110 * gib) 1 false).dryRun = false ∧
    flakyEnv.GetFreeSpace simWorld.store = (.ok (100 * gib), simWorld.store) ∧
    100 * gib < (New (110 * gib) 1 false).minFreeSpace ∧
    flakyEnv.GetTorrents simWorld.store = (.ok scenarioItems, simWorld.store) ∧
    selection goSort (New (110 * gib) 1 false).minTorrentsPerTracker scenarioItems
      ((New (110 * gib) 1 false).minFreeSpace - 100 * gib) ≠ [] ∧
    (flakyEnv.GetFreeSpace
      (removeLoop flakyEnv
        (selection goSort (New (110 * gib) 1 false).minTorrentsPerTracker scenarioItems
          ((New (110 * gib) 1 false).minFreeSpace - 100 * gib))
        (New (110 * gib) 1 false)
        { store := simWorld.store,
          calls := simWorld.calls ++ [Call.GetFreeSpace, Call.GetTorrents] }).2.store).1
      = .error "timeout" ∧
    ∃ r, (Run flakyEnv goSort (New (110 * gib) 1 false) simWorld).1 = .ok r ∧
      r.InitialFreeSpace = 100 * gib ∧
      (∀ e, (flakyEnv.GetFreeSpace
          (removeLoop flakyEnv
            (selection goSort (New (110 * gib) 1 false).minTorrentsPerTracker scenarioItems
              ((New (110 * gib) 1 false).minFreeSpace - 100 * gib))
            (New (110 * gib) 1 false)
            { store := simWorld.store,
              calls := simWorld.calls ++ [Call.GetFreeSpace, Call.GetTorrents] }).2.store).1
          = .error e →
        r.FinalFreeSpace = r.InitialFreeSpace) ∧
      (∀ g, (flakyEnv.GetFreeSpace
          (removeLoop flakyEnv
            (selection goSort (New (110 * gib) 1 false).minTorrentsPerTracker scenarioItems
              ((New (110 * gib) 1 false).minFreeSpace - 100 * gib))
            (New (110 * gib) 1 false)
            { store := simWorld.store,
              calls := simWorld.calls ++ [Call.GetFreeSpace, Call.GetTorrents] }).2.store).1
          = .ok g →
        r.FinalFreeSpace = g) :=
  ⟨rfl, rfl, by decide, rfl, by decide, rfl,
    c15_final_free_space flakyEnv goSort (New (110 * gib) 1 false) simWorld (100 * gib)
      simWorld.store simWorld.store scenarioItems rfl rfl (by decide) rfl (by decide)⟩

/-- When the loop ends below the target it never took the `break`, so every item was
examined: no group is left with more than the floor, or with more than what the loop
started with minus the items of the group it has walked. -/
theorem walk_exhausted (m need : Int) (l : List Torrent) (st : WalkState)
    (hlt : (walk m need l st).totalFreed < need) :
    ∀ g, (walk m need l st).remainingMap g ≤
      max m (st.remainingMap g - (groupCount g l : Int)) := by
  induction l generalizing st with
  | nil =>
    intro g
    simp [walk, groupCount]
  | cons t rest ih =>
    unfold walk at hlt ⊢
    split at hlt
    · rename_i hbreak
      omega
    · rename_i hbreak
      rw [if_neg hbreak]
      split at hlt
      · rename_i hskip
        rw [if_pos hskip]
        intro g
        have h := ih st hlt g
        rw [groupCount_cons]
        by_cases hg : t.NormalizedTracker = g
        · subst hg
          simp only [if_true]
          omega
        · simp only [hg, if_false]
          simpa using h
      · rename_i hskip
        rw [if_neg hskip]
        intro g
        have h := ih _ hlt g
        rw [groupCount_cons]
        simp only [setKey] at h
        by_cases hg : t.NormalizedTracker = g
        · subst hg
          simp only [if_true] at h ⊢
          omega
        · have hg2 : ¬ g = t.NormalizedTracker := fun e => hg e.symm
          simp only [hg, hg2, if_false] at h ⊢
          simpa using h

/-! ## The group key -/

theorem TrimPrefix_data (s p : String) :
    (TrimPrefix s p).data =
      if p.data.isPrefixOf s.data then s.data.drop p.data.length else s.data := by
  unfold TrimPrefix
  split <;> rfl

theorem splitChars_head (sep : Char) (l : List Char) :
    ∃ tl, splitChars sep l = l.takeWhile (fun c => decide (c ≠ sep)) :: tl := by
  induction l with
  | nil => exact ⟨[], rfl⟩
  | cons c cs ih =>
    obtain ⟨tl, htl⟩ := ih
    unfold splitChars
    by_cases hc : c = sep
    · exact ⟨splitChars sep cs, by simp [hc]⟩
    · rw [if_neg hc, htl]
      exact ⟨tl, by simp [List.takeWhile_cons, hc]⟩

/-- The key of a torrent with one tracker: the tracker without the three protocols, up to
its first "/" or ":". -/
theorem normalizeTracker_single (s : String) :
    (normalizeTracker [s]).data =
      (TrimPrefix (TrimPrefix (TrimPrefix s "http://") "https://") "udp://").data.takeWhile
        (fun c => decide (c ≠ ':') && decide (c ≠ '/')) := by
  obtain ⟨tl, htl⟩ := splitChars_head '/'
    (TrimPrefix (TrimPrefix (TrimPrefix s "http://") "https://") "udp://").data
  obtain ⟨tl₂, htl₂⟩ := splitChars_head ':'
    ((TrimPrefix (TrimPrefix (TrimPrefix s "http://") "https://") "udp://").data.takeWhile
      (fun c => decide (c ≠ '/')))
  simp only [normalizeTracker, Split, htl, List.map_cons, htl₂, List.headD_cons]
  rw [List.takeWhile_takeWhile]
  congr 1
  funext c
  simp

theorem takeWhile_stop (q : Char → Bool) (a rest : List Char) (ha : ∀ c ∈ a, q c = true)
    (hr : rest = [] ∨ ∃ c tl, rest = c :: tl ∧ q c = false) :
    (a ++ rest).takeWhile q = a := by
  rw [List.takeWhile_append_of_pos ha]
  rcases hr with h | ⟨c, tl, h, hq⟩
  · simp [h]
  · simp [h, List.takeWhile_cons, hq]

/-- A character sequence that starts with `p ++ "://"` and is a host followed by nothing, by
":" or by "/", has `p` for host. -/
theorem host_of_scheme (p host rest tail : List Char)
    (hp : ∀ c ∈ p, c ≠ '/' ∧ c ≠ ':') (hh : ∀ c ∈ host, c ≠ '/' ∧ c ≠ ':')
    (hr : rest = [] ∨ ∃ c tl, rest = c :: tl ∧ (c = ':' ∨ c = '/'))
    (heq : host ++ rest = p ++ ':' :: tail) : host = p := by
  have hq : ∀ (a : List Char), (∀ c ∈ a, c ≠ '/' ∧ c ≠ ':') →
      ∀ c ∈ a, (decide (c ≠ ':') && decide (c ≠ '/')) = true := by
    intro a ha c hc
    have := ha c hc
    simp [this.1, this.2]
  have h1 : (host ++ rest).takeWhile (fun c => decide (c ≠ ':') && decide (c ≠ '/')) = host := by
    apply takeWhile_stop _ _ _ (hq host hh)
    rcases hr with h | ⟨c, tl, h, hc⟩
    · exact Or.inl h
    · refine Or.inr ⟨c, tl, h, ?_⟩
      rcases hc with hc | hc <;> simp [hc]
  have h2 : (p ++ ':' :: tail).takeWhile (fun c => decide (c ≠ ':') && decide (c ≠ '/')) = p :=
    takeWhile_stop _ _ _ (hq p hp) (Or.inr ⟨':', tail, rfl, by simp⟩)
  rw [← h1, heq, h2]

theorem trim_miss (p host rest : List Char) (hp : ∀ c ∈ p, c ≠ '/' ∧ c ≠ ':')
    (hh : ∀ c ∈ host, c ≠ '/' ∧ c ≠ ':')
    (hr : rest = [] ∨ ∃ c tl, rest = c :: tl ∧ (c = ':' ∨ c = '/'))
    (hne : host ≠ p) : (p ++ [':', '/', '/']).isPrefixOf (host ++ rest) = false := by
  cases hpre : (p ++ [':', '/', '/']).isPrefixOf (host ++ rest) with
  | false => rfl
  | true =>
    obtain ⟨t, ht⟩ := List.isPrefixOf_iff_prefix.mp hpre
    exact absurd (host_of_scheme p host rest ('/' :: '/' :: t) hp hh hr (by simp [← ht])) hne

theorem trim_hit (p l : List Char) :
    (if p.isPrefixOf (p ++ l) then (p ++ l).drop p.length else p ++ l) = l := by
  have h : p.isPrefixOf (p ++ l) = true :=
    List.isPrefixOf_iff_prefix.mpr (List.prefix_append p l)
  rw [if_pos h]
  simp

theorem trim_pass (p l : List Char) (h : p.isPrefixOf l = false) :
    (if p.isPrefixOf l then l.drop p.length else l) = l := by
  rw [if_neg (by simp [h])]

theorem data_mk_eq (s : String) : String.mk s.data = s := rfl

/-- The three trims leave `host ++ rest` of `scheme ++ host ++ rest`. -/
theorem trim_endpoint (scheme host rest : String)
    (hs : scheme ∈ ["http://", "https://", "udp://", ""])
    (hh : ∀ c ∈ host.data, c ≠ '/' ∧ c ≠ ':')
    (hn : host ∉ ["http", "https", "udp"])
    (hr : rest.data = [] ∨ ∃ c tl, rest.data = c :: tl ∧ (c = ':' ∨ c = '/')) :
    (TrimPrefix (TrimPrefix (TrimPrefix (scheme ++ host ++ rest) "http://") "https://")
      "udp://").data = host.data ++ rest.data := by
  have hne : ∀ p : String, p ∈ ["http", "https", "udp"] → host.data ≠ p.data := by
    intro p hp heq
    have : host = p := by
      rw [← data_mk_eq host, ← data_mk_eq p, heq]
    exact hn (this ▸ hp)
  have m1 : (['h', 't', 't', 'p', ':', '/', '/']).isPrefixOf (host.data ++ rest.data) = false :=
    trim_miss "http".data host.data rest.data (by decide) hh hr (hne "http" (by simp))
  have m2 : (['h', 't', 't', 'p', 's', ':', '/', '/']).isPrefixOf (host.data ++ rest.data)
      = false :=
    trim_miss "https".data host.data rest.data (by decide) hh hr (hne "https" (by simp))
  have m3 : (['u', 'd', 'p', ':', '/', '/']).isPrefixOf (host.data ++ rest.data) = false :=
    trim_miss "udp".data host.data rest.data (by decide) hh hr (hne "udp" (by simp))
  have d1 : "http://".data = ['h', 't', 't', 'p', ':', '/', '/'] := rfl
  have d2 : "https://".data = ['h', 't', 't', 'p', 's', ':', '/', '/'] := rfl
  have d3 : "udp://".data = ['u', 'd', 'p', ':', '/', '/'] := rfl
  simp only [List.mem_cons, List.mem_singleton, List.not_mem_nil, or_false] at hs
  rcases hs with h | h | h | h
  · subst h
    simp only [TrimPrefix_data, String.data_append, d1, d2, d3, List.append_assoc]
    rw [trim_hit, trim_pass _ _ m2, trim_pass _ _ m3]
  · subst h
    simp only [TrimPrefix_data, String.data_append, d1, d2, d3, List.append_assoc]
    rw [trim_pass ['h', 't', 't', 'p', ':', '/', '/'] _ (by simp [List.isPrefixOf]),
      trim_hit, trim_pass _ _ m3]
  · subst h
    simp only [TrimPrefix_data, String.data_append, d1, d2, d3, List.append_assoc]
    rw [trim_pass ['h', 't', 't', 'p', ':', '/', '/'] _ (by simp [List.isPrefixOf]),
      trim_pass ['h', 't', 't', 'p', 's', ':', '/', '/'] _ (by simp [List.isPrefixOf]),
      trim_hit]
  · subst h
    have d0 : "".data = [] := rfl
    simp only [TrimPrefix_data, String.data_append, d0, d1, d2, d3, List.nil_append]
    rw [trim_pass _ _ m1, trim_pass _ _ m2, trim_pass _ _ m3]

/-! ## Claims on the group key -/

/-- C18 (as stated, refuted): for a torrent with two trackers `normalizeTracker` returns
"public-tracker", which is not the key "shared". -/
theorem c18_shared_key_counterexample :
    twoTrackers.length > 1 ∧
    normalizeTracker twoTrackers = "public-tracker" ∧
    normalizeTracker twoTrackers ≠ "shared" := by
  decide

/-- C18 (amended): `normalizeTracker` returns the key "unknown" for an empty tracker list,
and for every list with more than one tracker it returns the key "public-tracker", the same
key whatever the trackers are. -/
theorem c18_reserved_keys (trackers : List String) (h : trackers.length > 1) :
    normalizeTracker [] = "unknown" ∧ normalizeTracker trackers = "public-tracker" := by
  refine ⟨rfl, ?_⟩
  match trackers, h with
  | _ :: _ :: _, _ => rfl

theorem c18_reserved_keys_witness :
    twoTrackers.length > 1 ∧
    normalizeTracker [] = "unknown" ∧ normalizeTracker twoTrackers = "public-tracker" :=
  ⟨by decide, c18_reserved_keys twoTrackers (by decide)⟩

/-- C19 (as stated, refuted): the two trackers of the example, which differ in scheme, port,
path and sub-domain of one registrable domain, get different keys: the sub-domain is kept. -/
theorem c19_subdomain_counterexample :
    normalizeTracker ["http://tracker.example.com:8080/announce"] = "tracker.example.com" ∧
    normalizeTracker ["udp://example.com:6969"] = "example.com" ∧
    normalizeTracker ["http://tracker.example.com:8080/announce"] ≠
      normalizeTracker ["udp://example.com:6969"] := by
  decide

/-- C19 (amended): for a torrent with exactly one tracker, `normalizeTracker` returns the
tracker text with the prefixes "http://", "https://" and "udp://" trimmed, in this order and
each when present, and then cut at its first "/" or ":"; the key never contains "/" or ":",
hence none of the three prefixes.  For every tracker made of one of these schemes or none,
then a host text without "/" and ":" (other than "http", "https", "udp") and then nothing,
a ":port" part or a "/path" part, the key is that host text, sub-domains kept, so that two
such trackers that differ only in scheme, port or path have the same key. -/
theorem c19_host_key (host : String) (hh : ∀ c ∈ host.data, c ≠ '/' ∧ c ≠ ':')
    (hn : host ∉ ["http", "https", "udp"]) :
    (∀ scheme ∈ ["http://", "https://", "udp://", ""], ∀ rest : String,
      (rest.data = [] ∨ rest.data.head? = some ':' ∨ rest.data.head? = some '/') →
      normalizeTracker [scheme ++ host ++ rest] = host) ∧
    (∀ scheme₁ ∈ ["http://", "https://", "udp://", ""],
      ∀ scheme₂ ∈ ["http://", "https://", "udp://", ""], ∀ rest₁ rest₂ : String,
      (rest₁.data = [] ∨ rest₁.data.head? = some ':' ∨ rest₁.data.head? = some '/') →
      (rest₂.data = [] ∨ rest₂.data.head? = some ':' ∨ rest₂.data.head? = some '/') →
      normalizeTracker [scheme₁ ++ host ++ rest₁] =
        normalizeTracker [scheme₂ ++ host ++ rest₂]) ∧
    (∀ s : String, (normalizeTracker [s]).data =
      (TrimPrefix (TrimPrefix (TrimPrefix s "http://") "https://") "udp://").data.takeWhile
        (fun c => decide (c ≠ ':') && decide (c ≠ '/'))) ∧
    (∀ s : String, '/' ∉ (normalizeTracker [s]).data ∧ ':' ∉ (normalizeTracker [s]).data) ∧
    (∀ s : String, ∀ p ∈ ["http://", "https://", "udp://"],
      ¬ p.data <:+: (normalizeTracker [s]).data) := by
  have hkey : ∀ scheme ∈ ["http://", "https://", "udp://", ""], ∀ rest : String,
      (rest.data = [] ∨ rest.data.head? = some ':' ∨ rest.data.head? = some '/') →
      normalizeTracker [scheme ++ host ++ rest] = host := by
    intro scheme hs rest hrest
    have hr : rest.data = [] ∨ ∃ c tl, rest.data = c :: tl ∧ (c = ':' ∨ c = '/') := by
      rcases hrest with h | h | h
      · exact Or.inl h
      · cases hd : rest.data with
        | nil => exact Or.inl rfl
        | cons c tl =>
          rw [hd] at h
          simp only [List.head?_cons, Option.some.injEq] at h
          exact Or.inr ⟨c, tl, rfl, Or.inl h⟩
      · cases hd : rest.data with
        | nil => exact Or.inl rfl
        | cons c tl =>
          rw [hd] at h
          simp only [List.head?_cons, Option.some.injEq] at h
          exact Or.inr ⟨c, tl, rfl, Or.inr h⟩
    have hdata : (normalizeTracker [scheme ++ host ++ rest]).data = host.data := by
      rw [normalizeTracker_single, trim_endpoint scheme host rest hs hh hn hr]
      apply takeWhile_stop
      · intro c hc
        have := hh c hc
        simp [this.1, this.2]
      · rcases hr with h | ⟨c, tl, h, hc⟩
        · exact Or.inl h
        · refine Or.inr ⟨c, tl, h, ?_⟩
          rcases hc with hc | hc <;> simp [hc]
    rw [← data_mk_eq (normalizeTracker [scheme ++ host ++ rest]), hdata]
  have hcolon : ∀ s : String, ':' ∉ (normalizeTracker [s]).data := by
    intro s hmem
    rw [normalizeTracker_single] at hmem
    have := List.mem_takeWhile_imp hmem
    simp at this
  refine ⟨hkey, ?_, normalizeTracker_single, ?_, ?_⟩
  · intro scheme₁ hs₁ scheme₂ hs₂ rest₁ rest₂ hr₁ hr₂
    rw [hkey scheme₁ hs₁ rest₁ hr₁, hkey scheme₂ hs₂ rest₂ hr₂]
  · intro s
    refine ⟨?_, hcolon s⟩
    intro hmem
    rw [normalizeTracker_single] at hmem
    have := List.mem_takeWhile_imp hmem
    simp at this
  · intro s p hp hpart
    have hin : ':' ∈ p.data := by
      simp only [List.mem_cons, List.mem_singleton, List.not_mem_nil, or_false] at hp
      rcases hp with h | h | h <;> rw [h] <;> decide
    exact hcolon s (hpart.subset hin)

theorem c19_host_key_witness :
    (∀ c ∈ "example.com".data, c ≠ '/' ∧ c ≠ ':') ∧
    "example.com" ∉ ["http", "https", "udp"] ∧
    normalizeTracker ["http://" ++ "example.com" ++ ":8080/announce"] = "example.com" ∧
    normalizeTracker ["udp://" ++ "example.com" ++ ":6969"] = "example.com" ∧
    normalizeTracker ["" ++ "example.com" ++ ""] = "example.com" ∧
    normalizeTracker ["https://" ++ "example.com" ++ "/announce"] =
      normalizeTracker ["udp://" ++ "example.com" ++ ":6969"] :=
  ⟨by decide, by decide,
    (c19_host_key "example.com" (by decide) (by decide)).1 "http://" (by decide)
      ":8080/announce" (by decide),
    (c19_host_key "example.com" (by decide) (by decide)).1 "udp://" (by decide)
      ":6969" (by decide),
    (c19_host_key "example.com" (by decide) (by decide)).1 "" (by decide) "" (by decide),
    (c19_host_key "example.com" (by decide) (by decide)).2.1 "https://" (by decide)
      "udp://" (by decide) "/announce" ":6969" (by decide) (by decide)⟩

/-! ## Claims on the request -/

theorem doRequest_always409 (fuel : Nat) (c : Client) (req : RPCRequest)
    (sent : List HTTPRequest) :
    (doRequest always409 fuel c req () sent).1 = none ∧
    (doRequest always409 fuel c req () sent).2.2.2.length = sent.length + fuel := by
  induction fuel generalizing c sent with
  | zero => exact ⟨rfl, rfl⟩
  | succ n ih =>
    unfold doRequest
    simp only [always409, if_true]
    have h := ih { c with sessionID := "token" }
      (sent ++ [{ url := c.url, body := req,
                  basicAuth := if c.username ≠ "" then some (c.username, c.password) else none,
                  sessionHeader := if c.sessionID ≠ "" then some c.sessionID else none }])
    simp only [always409] at h
    refine ⟨h.1, ?_⟩
    rw [h.2]
    simp
    omega

/-- C20 (the code at the failing input): against a store that answers 409 to every request,
`doRequest` does not return within any number of activations, and every activation sends
the request again: with the bound `n` it has sent `n` requests and none has returned, so
there is no second 409 after which it gives up with a protocol error.  (Against a store
that answers 409 once and 200 after that, it returns after two requests, the second one
carrying the session id of the 409 response.) -/
theorem c20_retry_unbounded (fuel : Nat) :
    (doRequest always409 fuel newClient sessionGet () []).1 = none ∧
    (doRequest always409 fuel newClient sessionGet () []).2.2.2.length = fuel ∧
    (doRequest always409 3 newClient sessionGet () []).2.2.2.map (fun r => r.sessionHeader) =
      [none, some "token", some "token"] ∧
    (doRequest handshake 2 newClient sessionGet () []).1 =
      some (.ok { Result := "success", Arguments := "", Tag := 0 }) ∧
    (doRequest handshake 2 newClient sessionGet () []).2.2.2.map (fun r => r.sessionHeader) =
      [none, some "token"] ∧
    (doRequest handshake 2 newClient sessionGet () []).2.1.sessionID = "token" := by
  have h := doRequest_always409 fuel newClient sessionGet []
  refine ⟨h.1, by simpa using h.2, by decide, rfl, by decide, by decide⟩

/-! ## The selection loop, step by step -/

theorem walk_toRemove (m need : Int) (l : List Torrent) (st : WalkState) :
    (walk m need l st).toRemove =
      st.toRemove ++ picks m need l st.totalFreed st.remainingMap := by
  induction l generalizing st with
  | nil => simp [walk, picks]
  | cons t rest ih =>
    unfold walk picks
    split
    · simp
    · split
      · exact ih st
      · rw [ih]
        simp

theorem selection_eq_picks (S : AgeSort) (m : Int) (torrents : List Torrent) (need : Int) :
    selection S m torrents need =
      picks m need (S.run torrents) 0 (fun g => (groupCount g torrents : Int)) := by
  unfold selection selectState
  rw [walk_toRemove, initState_eq]
  simp

/-- Once the target is reached the loop changes nothing more. -/
theorem walk_done (m need : Int) (l : List Torrent) (st : WalkState)
    (h : st.totalFreed ≥ need) : walk m need l st = st := by
  cases l with
  | nil => rfl
  | cons t rest =>
    unfold walk
    rw [if_pos h]

theorem walk_cons (m need : Int) (t : Torrent) (rest : List Torrent) (st : WalkState) :
    walk m need (t :: rest) st =
      if st.totalFreed ≥ need then st
      else if st.remainingMap t.NormalizedTracker ≤ m then walk m need rest st
      else
        walk m need rest
          { toRemove := st.toRemove ++ [t]
            totalFreed := st.totalFreed + t.TotalSize
            remainingMap := setKey st.remainingMap t.NormalizedTracker
              (st.remainingMap t.NormalizedTracker - 1) } := by
  rw [walk]

/-- Walking a list is walking its first part and then the rest from the state reached. -/
theorem walk_append (m need : Int) (p q : List Torrent) (st : WalkState) :
    walk m need (p ++ q) st = walk m need q (walk m need p st) := by
  induction p generalizing st with
  | nil => rfl
  | cons t rest ih =>
    rw [List.cons_append]
    by_cases hb : st.totalFreed ≥ need
    · rw [walk_done m need (t :: (rest ++ q)) st hb, walk_done m need (t :: rest) st hb,
        walk_done m need q st hb]
    · rw [walk_cons m need t (rest ++ q) st, walk_cons m need t rest st, if_neg hb, if_neg hb]
      split
      · exact ih st
      · exact ih _

theorem totalSize_cons (t : Torrent) (l : List Torrent) :
    totalSize (t :: l) = t.TotalSize + totalSize l := by
  simp [totalSize]

/-- Whatever was selected before a selected item sums to less than the target. -/
theorem picks_before (m need : Int) (l : List Torrent) (freed : Int) (rem : String → Int)
    (a b : List Torrent) (h : picks m need l freed rem = a ++ b) (hb : b ≠ []) :
    freed + totalSize a < need := by
  induction l generalizing freed rem a with
  | nil =>
    simp only [picks] at h
    have := List.append_eq_nil.mp h.symm
    exact absurd this.2 hb
  | cons t rest ih =>
    unfold picks at h
    split at h
    · have := List.append_eq_nil.mp h.symm
      exact absurd this.2 hb
    · rename_i hfree
      split at h
      · exact ih freed rem a h
      · cases a with
        | nil =>
          simp [totalSize]
          omega
        | cons x a' =>
          rw [List.cons_append] at h
          have hx := List.cons.inj h
          have := ih (freed + t.TotalSize) _ a' hx.2
          rw [totalSize_cons, ← hx.1]
          omega

/-- A selected item's group counter, less the items of the group selected before it, was
above the floor. -/
theorem picks_guard (m need : Int) (l : List Torrent) (freed : Int) (rem : String → Int)
    (a : List Torrent) (t : Torrent) (b : List Torrent)
    (h : picks m need l freed rem = a ++ t :: b) :
    m < rem t.NormalizedTracker - (groupCount t.NormalizedTracker a : Int) := by
  induction l generalizing freed rem a with
  | nil =>
    simp only [picks] at h
    have := List.append_eq_nil.mp h.symm
    exact absurd this.2 (by simp)
  | cons x rest ih =>
    unfold picks at h
    split at h
    · have := List.append_eq_nil.mp h.symm
      exact absurd this.2 (by simp)
    · split at h
      · exact ih freed rem a h
      · rename_i hguard
        cases a with
        | nil =>
          rw [List.nil_append] at h
          have hx := List.cons.inj h
          rw [← hx.1]
          simp [groupCount]
          omega
        | cons y a' =>
          rw [List.cons_append] at h
          have hx := List.cons.inj h
          have := ih (freed + x.TotalSize) _ a' hx.2
          rw [groupCount_cons, ← hx.1]
          simp only [setKey] at this
          by_cases hg : t.NormalizedTracker = x.NormalizedTracker
          · rw [if_pos hg] at this
            rw [hg, if_pos rfl]
            rw [hg] at this
            push_cast
            omega
          · rw [if_neg hg] at this
            have hg2 : ¬ x.NormalizedTracker = t.NormalizedTracker := fun e => hg e.symm
            rw [if_neg hg2]
            simpa using this

/-- A smaller target selects a first part of what a larger target selects. -/
theorem picks_mono (m s₁ s₂ : Int) (hs : s₁ ≤ s₂) (l : List Torrent) (freed : Int)
    (rem : String → Int) : picks m s₁ l freed rem <+: picks m s₂ l freed rem := by
  induction l generalizing freed rem with
  | nil => simp [picks]
  | cons t rest ih =>
    unfold picks
    by_cases h₁ : freed ≥ s₁
    · rw [if_pos h₁]
      exact List.nil_prefix
    · have h₂ : ¬ freed ≥ s₂ := by omega
      rw [if_neg h₁, if_neg h₂]
      split
      · exact ih freed rem
      · exact (List.prefix_cons_inj t).mpr (ih _ _)

/-! ## The loop with the `int64` accumulator -/

theorem wrap64_of_range (x : Int) (hlo : -(2 : Int) ^ 63 ≤ x) (hhi : x < 2 ^ 63) :
    wrap64 x = x := by
  unfold wrap64
  norm_num at hlo hhi ⊢
  omega

theorem wrap64_add_left (x y : Int) : wrap64 (wrap64 x + y) = wrap64 (x + y) := by
  unfold wrap64
  norm_num
  omega

theorem wrap64_idem (x : Int) : wrap64 (wrap64 x) = wrap64 x := by
  unfold wrap64
  norm_num

theorem wrap64_le (x : Int) (hx : -(2 : Int) ^ 63 ≤ x) : wrap64 x ≤ x := by
  unfold wrap64
  norm_num at hx ⊢
  omega

theorem walk64_toRemove (m need : Int) (l : List Torrent) (st : WalkState) :
    (walk64 m need l st).toRemove =
      st.toRemove ++ picks64 m need l st.totalFreed st.remainingMap := by
  induction l generalizing st with
  | nil => simp [walk64, picks64]
  | cons t rest ih =>
    unfold walk64 picks64
    split
    · simp
    · split
      · exact ih st
      · rw [ih]
        simp

theorem selection64_eq_picks64 (S : AgeSort) (m : Int) (torrents : List Torrent) (need : Int) :
    selection64 S m torrents need =
      picks64 m need (S.run torrents) 0 (fun g => (groupCount g torrents : Int)) := by
  unfold selection64 selectState64
  rw [walk64_toRemove, initState_eq]
  simp

theorem picks64_sublist (m need : Int) (l : List Torrent) (freed : Int) (rem : String → Int) :
    (picks64 m need l freed rem).Sublist l := by
  induction l generalizing freed rem with
  | nil => simp [picks64]
  | cons t rest ih =>
    unfold picks64
    split
    · exact List.nil_sublist _
    · split
      · exact (ih freed rem).cons t
      · exact (ih _ _).cons₂ t

/-- The accumulator at the end of the loop is the total size of what the loop has selected,
added to the accumulator at the start and reduced to an `int64`. -/
theorem walk64_totalFreed (m need : Int) (l : List Torrent) (st : WalkState)
    (hst : wrap64 st.totalFreed = st.totalFreed) :
    (walk64 m need l st).totalFreed =
      wrap64 (st.totalFreed + totalSize (picks64 m need l st.totalFreed st.remainingMap)) := by
  induction l generalizing st with
  | nil => simp [walk64, picks64, totalSize, hst]
  | cons t rest ih =>
    unfold walk64 picks64
    split
    · simp [totalSize, hst]
    · split
      · exact ih st hst
      · rw [ih _ (wrap64_idem _), totalSize_cons, wrap64_add_left, Int.add_assoc]

theorem walk64_remaining (m need : Int) (l : List Torrent) (st : WalkState) (g : String) :
    (walk64 m need l st).remainingMap g =
      st.remainingMap g -
        (groupCount g (picks64 m need l st.totalFreed st.remainingMap) : Int) := by
  induction l generalizing st with
  | nil => simp [walk64, picks64, groupCount]
  | cons t rest ih =>
    unfold walk64 picks64
    split
    · simp [groupCount]
    · split
      · exact ih st
      · rw [ih, groupCount_cons]
        simp only [setKey]
        by_cases hg : g = t.NormalizedTracker
        · subst hg
          simp
          omega
        · have hg2 : ¬ t.NormalizedTracker = g := fun e => hg e.symm
          simp [hg, hg2]

/-- When the loop with the `int64` accumulator ends below the target it never took the
`break`, so every item was examined. -/
theorem walk64_exhausted (m need : Int) (l : List Torrent) (st : WalkState)
    (hlt : (walk64 m need l st).totalFreed < need) :
    ∀ g, (walk64 m need l st).remainingMap g ≤
      max m (st.remainingMap g - (groupCount g l : Int)) := by
  induction l generalizing st with
  | nil =>
    intro g
    simp [walk64, groupCount]
  | cons t rest ih =>
    unfold walk64 at hlt ⊢
    split at hlt
    · rename_i hbreak
      omega
    · rename_i hbreak
      rw [if_neg hbreak]
      split at hlt
      · rename_i hskip
        rw [if_pos hskip]
        intro g
        have h := ih st hlt g
        rw [groupCount_cons]
        by_cases hg : t.NormalizedTracker = g
        · subst hg
          simp only [if_true]
          omega
        · simp only [hg, if_false]
          simpa using h
      · rename_i hskip
        rw [if_neg hskip]
        intro g
        have h := ih _ hlt g
        rw [groupCount_cons]
        simp only [setKey] at h
        by_cases hg : t.NormalizedTracker = g
        · subst hg
          simp only [if_true] at h ⊢
          omega
        · have hg2 : ¬ g = t.NormalizedTracker := fun e => hg e.symm
          simp only [hg, hg2, if_false] at h ⊢
          simpa using h

/-- Whatever the loop with the `int64` accumulator selected before a selected item has a
total size that, reduced to an `int64`, is less than the target. -/
theorem picks64_before (m need : Int) (l : List Torrent) (freed : Int) (rem : String → Int)
    (a b : List Torrent) (hf : wrap64 freed = freed)
    (h : picks64 m need l freed rem = a ++ b) (hb : b ≠ []) :
    wrap64 (freed + totalSize a) < need := by
  induction l generalizing freed rem a with
  | nil =>
    simp only [picks64] at h
    have := List.append_eq_nil.mp h.symm
    exact absurd this.2 hb
  | cons t rest ih =>
    unfold picks64 at h
    split at h
    · have := List.append_eq_nil.mp h.symm
      exact absurd this.2 hb
    · rename_i hfree
      split at h
      · exact ih freed rem a hf h
      · cases a with
        | nil =>
          simp only [totalSize, List.map_nil, List.sum_nil, Int.add_zero]
          rw [hf]
          omega
        | cons x a' =>
          rw [List.cons_append] at h
          have hx := List.cons.inj h
          have := ih (wrap64 (freed + t.TotalSize)) _ a' (wrap64_idem _) hx.2
          rw [wrap64_add_left] at this
          rw [totalSize_cons, ← hx.1, ← Int.add_assoc]
          exact this

theorem totalSize_nonneg (l : List Torrent) (h : ∀ t ∈ l, 0 ≤ t.TotalSize) :
    0 ≤ totalSize l := by
  induction l with
  | nil => simp [totalSize]
  | cons t rest ih =>
    rw [totalSize_cons]
    have h1 := h t (by simp)
    have h2 := ih (fun u hu => h u (List.mem_cons_of_mem _ hu))
    omega

/-- As long as the sizes are not negative and what has been accounted for plus the total size
of the items still to walk is below `2^63`, no addition wraps around: the loop with the
`int64` accumulator and the loop over the integers are the same. -/
theorem walk64_eq_walk (m need : Int) (l : List Torrent) (st : WalkState)
    (hsize : ∀ t ∈ l, 0 ≤ t.TotalSize) (hst : 0 ≤ st.totalFreed)
    (hsum : st.totalFreed + totalSize l < 2 ^ 63) :
    walk64 m need l st = walk m need l st := by
  induction l generalizing st with
  | nil => rfl
  | cons t rest ih =>
    have ht := hsize t (by simp)
    have hrest : ∀ u ∈ rest, 0 ≤ u.TotalSize := fun u hu => hsize u (List.mem_cons_of_mem _ hu)
    have hnn := totalSize_nonneg rest hrest
    rw [totalSize_cons] at hsum
    unfold walk64 walk
    split
    · rfl
    · split
      · exact ih st hrest hst (by omega)
      · have hw : wrap64 (st.totalFreed + t.TotalSize) = st.totalFreed + t.TotalSize :=
          wrap64_of_range _ (by norm_num; omega) (by omega)
        rw [hw]
        exact ih _ hrest (by simp only; omega) (by simp only; omega)

theorem totalSize_perm {l₁ l₂ : List Torrent} (h : l₁.Perm l₂) :
    totalSize l₁ = totalSize l₂ := by
  unfold totalSize
  exact (h.map _).sum_eq

/-- On a listing of items of non-negative sizes whose total size is below `2^63`,
`selectTorrentsToRemove` returns the same selection with the `int64` accumulator as with an
accumulator over the integers. -/
theorem selection64_eq_selection (S : AgeSort) (m : Int) (torrents : List Torrent) (need : Int)
    (hsize : ∀ t ∈ torrents, 0 ≤ t.TotalSize) (hsum : totalSize torrents < 2 ^ 63) :
    selection64 S m torrents need = selection S m torrents need ∧
    selectTorrentsToRemove64 S m torrents need = selectTorrentsToRemove S m torrents need := by
  have h : selectState64 S m torrents need = selectState S m torrents need := by
    unfold selectState64 selectState
    apply walk64_eq_walk
    · intro t ht
      exact hsize t ((S.perm torrents).mem_iff.mp ht)
    · simp [initState]
    · rw [totalSize_perm (S.perm torrents)]
      simpa [initState] using hsum
  unfold selection64 selection selectTorrentsToRemove64 selectTorrentsToRemove
  rw [h]
  exact ⟨rfl, rfl⟩

/-! ## Claims on the walk -/

/-- C24 (as stated, refuted): three items of group A of 2^62, 2^62 and 7 bytes, floor 0 and a
deficit of 2^62 + 1 bytes.  After the first two items the `int64` accumulator has wrapped
around to -2^63, which is below the deficit, so the loop goes on and selects the third item:
the selection is all three items, and the total size of all but the last is 2^63, not less
than the deficit. -/
theorem c24_overflow_counterexample :
    selectTorrentsToRemove64 goSort 0 hugeItems (2 ^ 62 + 1) = .ok hugeItems ∧
    selection64 goSort 0 hugeItems (2 ^ 62 + 1) ≠ [] ∧
    (selectState64 goSort 0 hugeItems (2 ^ 62 + 1)).totalFreed = -(2 ^ 63) + 7 ∧
    totalSize (selection64 goSort 0 hugeItems (2 ^ 62 + 1)).dropLast = 2 ^ 63 ∧
    ¬ totalSize (selection64 goSort 0 hugeItems (2 ^ 62 + 1)).dropLast < 2 ^ 62 + 1 :=
  ⟨rfl, by decide, by decide, by decide, by decide⟩

/-- C24 (amended): the loop stops as soon as `spaceNeeded` bytes are accounted for in its
`int64` accumulator: for every non-empty selection returned by `selectTorrentsToRemove`
such that the total size of all selected items but the last is an `int64` value (at least
-2^63 and less than 2^63), that total is strictly less than `spaceNeeded`; and the same holds
of whatever was selected before any selected item. -/
theorem c24_stops_at_target (S : AgeSort) (m : Int) (torrents : List Torrent) (need : Int)
    (hne : selection64 S m torrents need ≠ [])
    (hlo : -(2 : Int) ^ 63 ≤ totalSize (selection64 S m torrents need).dropLast)
    (hhi : totalSize (selection64 S m torrents need).dropLast < 2 ^ 63) :
    selectTorrentsToRemove64 S m torrents need = .ok (selection64 S m torrents need) ∧
    totalSize (selection64 S m torrents need).dropLast < need ∧
    (∀ a b, selection64 S m torrents need = a ++ b → b ≠ [] →
      -(2 : Int) ^ 63 ≤ totalSize a → totalSize a < 2 ^ 63 → totalSize a < need) := by
  have key : ∀ a b, selection64 S m torrents need = a ++ b → b ≠ [] →
      -(2 : Int) ^ 63 ≤ totalSize a → totalSize a < 2 ^ 63 → totalSize a < need := by
    intro a b hab hb h1 h2
    rw [selection64_eq_picks64] at hab
    have h := picks64_before m need _ 0 _ a b
      (wrap64_of_range 0 (by norm_num) (by norm_num)) hab hb
    rw [Int.zero_add, wrap64_of_range _ h1 h2] at h
    exact h
  refine ⟨rfl, ?_, key⟩
  exact key _ [(selection64 S m torrents need).getLast hne]
    (List.dropLast_append_getLast hne).symm (by simp) hlo hhi

theorem c24_stops_at_target_witness :
    selection64 goSort 1 mixedItems (15 * gib) ≠ [] ∧
    -(2 : Int) ^ 63 ≤ totalSize (selection64 goSort 1 mixedItems (15 * gib)).dropLast ∧
    totalSize (selection64 goSort 1 mixedItems (15 * gib)).dropLast < 2 ^ 63 ∧
    selectTorrentsToRemove64 goSort 1 mixedItems (15 * gib) =
      .ok (selection64 goSort 1 mixedItems (15 * gib)) ∧
    totalSize (selection64 goSort 1 mixedItems (15 * gib)).dropLast < 15 * gib ∧
    (∀ a b, selection64 goSort 1 mixedItems (15 * gib) = a ++ b → b ≠ [] →
      -(2 : Int) ^ 63 ≤ totalSize a → totalSize a < 2 ^ 63 → totalSize a < 15 * gib) :=
  ⟨by decide, by decide, by decide,
    c24_stops_at_target goSort 1 mixedItems (15 * gib) (by decide) (by decide) (by decide)⟩

/-- C17: an unreachable target is a legal, maximal partial result.  For every floor of the
spec's domain (`minTorrentsPerTracker >= 0`): whenever the total size of the selection
returned by `selectTorrentsToRemove` is less than `spaceNeeded`, no error is returned, the
partial selection is returned, `spaceNeeded > 0`, and every group's remaining (unselected)
count is `<= minTorrentsPerTracker`, so that the guard of the loop refuses every unselected
item.  This holds of the loop over the integers for every listing, and of the loop with the
`int64` accumulator for every listing of items of non-negative sizes. -/
theorem c17_partial_selection_maximal (S : AgeSort) (m : Int) (torrents : List Torrent)
    (need : Int) (hm : 0 ≤ m) :
    (totalSize (selection S m torrents need) < need →
      selectTorrentsToRemove S m torrents need = .ok (selection S m torrents need) ∧
      0 < need ∧
      ∀ g, remainingCount S m torrents need g ≤ m) ∧
    ((∀ t ∈ torrents, 0 ≤ t.TotalSize) → totalSize (selection64 S m torrents need) < need →
      selectTorrentsToRemove64 S m torrents need = .ok (selection64 S m torrents need) ∧
      0 < need ∧
      ∀ g, remainingCount64 S m torrents need g ≤ m) := by
  constructor
  · intro hlt
    have hspec := selection_spec S m torrents need
    have hfreed : (walk m need (S.run torrents) (initState S torrents)).totalFreed < need := by
      have := hspec.2.1
      simp only [selectState] at this
      rw [this]
      exact hlt
    have hmax : ∀ g, remainingCount S m torrents need g ≤ m := by
      intro g
      have h := walk_exhausted m need (S.run torrents) (initState S torrents) hfreed g
      rw [initState_remaining, groupCount_perm (S.perm torrents) g] at h
      have hrem := hspec.2.2.1 g
      simp only [selectState] at hrem
      rw [hrem] at h
      have h0 : max m ((groupCount g torrents : Int) - (groupCount g torrents : Int)) = m := by
        rw [Int.sub_self]
        exact max_eq_left hm
      rwa [h0] at h
    have hneed : 0 < need := by
      cases hrun : S.run torrents with
      | nil =>
        have hnil : selection S m torrents need = [] :=
          List.eq_nil_of_sublist_nil (hrun ▸ hspec.1)
        rw [hnil] at hlt
        simpa [totalSize] using hlt
      | cons t rest =>
        by_contra hle
        have hbreak : (initState S torrents).totalFreed ≥ need := by
          simp only [initState]
          omega
        have : (walk m need (S.run torrents) (initState S torrents)).totalFreed = 0 := by
          rw [hrun]
          unfold walk
          rw [if_pos hbreak]
          rfl
        omega
    exact ⟨rfl, hneed, hmax⟩
  · intro hsize hlt
    have hsub : (selection64 S m torrents need).Sublist (S.run torrents) := by
      rw [selection64_eq_picks64]
      exact picks64_sublist _ _ _ _ _
    have hnn : 0 ≤ totalSize (selection64 S m torrents need) :=
      totalSize_nonneg _ (fun t ht => hsize t ((S.perm torrents).mem_iff.mp (hsub.subset ht)))
    have hfin : (walk64 m need (S.run torrents) (initState S torrents)).totalFreed =
        wrap64 (totalSize (selection64 S m torrents need)) := by
      rw [walk64_totalFreed m need (S.run torrents) (initState S torrents)
        (wrap64_of_range _ (by simp [initState]) (by simp [initState])),
        selection64_eq_picks64, initState_eq]
      simp
    have hfreed : (walk64 m need (S.run torrents) (initState S torrents)).totalFreed < need := by
      rw [hfin]
      have := wrap64_le (totalSize (selection64 S m torrents need)) (by norm_num; omega)
      omega
    refine ⟨rfl, by omega, ?_⟩
    intro g
    have h := walk64_exhausted m need (S.run torrents) (initState S torrents) hfreed g
    rw [walk64_remaining, initState_remaining, groupCount_perm (S.perm torrents) g] at h
    have hsel : picks64 m need (S.run torrents) (initState S torrents).totalFreed
        (initState S torrents).remainingMap = selection64 S m torrents need := by
      rw [selection64_eq_picks64, initState_eq]
    rw [hsel, Int.sub_self, max_eq_left hm] at h
    exact h

theorem c17_partial_selection_maximal_witness :
    (0 : Int) ≤ 1 ∧
    totalSize (selection goSort 1 scenarioItems (15 * gib)) < 15 * gib ∧
    (∀ t ∈ scenarioItems, 0 ≤ t.TotalSize) ∧
    totalSize (selection64 goSort 1 scenarioItems (15 * gib)) < 15 * gib ∧
    (selectTorrentsToRemove goSort 1 scenarioItems (15 * gib) =
        .ok (selection goSort 1 scenarioItems (15 * gib)) ∧
      0 < 15 * gib ∧
      ∀ g, remainingCount goSort 1 scenarioItems (15 * gib) g ≤ 1) ∧
    (selectTorrentsToRemove64 goSort 1 scenarioItems (15 * gib) =
        .ok (selection64 goSort 1 scenarioItems (15 * gib)) ∧
      0 < 15 * gib ∧
      ∀ g, remainingCount64 goSort 1 scenarioItems (15 * gib) g ≤ 1) :=
  ⟨by decide, by decide, by decide, by decide,
    (c17_partial_selection_maximal goSort 1 scenarioItems (15 * gib) (by decide)).1 (by decide),
    (c17_partial_selection_maximal goSort 1 scenarioItems (15 * gib) (by decide)).2 (by decide)
      (by decide)⟩

/-- C25 (as stated, refuted): in the three-item scenario with floor 1, item 1 of group A is
selected although, after its removal, the remaining count of group A is 1, which is the
floor and not greater than it. -/
theorem c25_skip_rule_counterexample :
    selection goSort 1 scenarioItems (15 * gib) = [mkTorrent 1 (10 * gib) "A" 1] ∧
    remainingCount goSort 1 scenarioItems (15 * gib) "A" = 1 ∧
    ¬ ((1 : Int) < remainingCount goSort 1 scenarioItems (15 * gib) "A") := by
  decide

/-- C25 (amended): an item is skipped whenever its group's remaining count, before any
removal of it, is `minTorrentsPerTracker` or below; an item is selected only if that count is
greater than `minTorrentsPerTracker`, so that the group's remaining count after the removal
is still at least `minTorrentsPerTracker`.  Stated for the step of the loop and for every
item of the returned selection, the counts being those of the listing less the items
selected before. -/
theorem c25_skip_rule (S : AgeSort) (m : Int) (torrents : List Torrent) (need : Int)
    (a : List Torrent) (t : Torrent) (b : List Torrent)
    (h : selection S m torrents need = a ++ t :: b) :
    m < (groupCount t.NormalizedTracker torrents : Int) -
      (groupCount t.NormalizedTracker a : Int) ∧
    m ≤ (groupCount t.NormalizedTracker torrents : Int) -
      (groupCount t.NormalizedTracker (a ++ [t]) : Int) ∧
    (∀ (st : WalkState) (u : Torrent) (rest : List Torrent), ¬ st.totalFreed ≥ need →
      (st.remainingMap u.NormalizedTracker ≤ m →
        walk m need (u :: rest) st = walk m need rest st) ∧
      (m < st.remainingMap u.NormalizedTracker →
        walk m need (u :: rest) st =
          walk m need rest
            { toRemove := st.toRemove ++ [u]
              totalFreed := st.totalFreed + u.TotalSize
              remainingMap := setKey st.remainingMap u.NormalizedTracker
                (st.remainingMap u.NormalizedTracker - 1) })) := by
  rw [selection_eq_picks] at h
  have hg := picks_guard m need _ _ _ a t b h
  refine ⟨hg, ?_, ?_⟩
  · have : groupCount t.NormalizedTracker (a ++ [t]) = groupCount t.NormalizedTracker a + 1 := by
      simp [groupCount, List.countP_append]
    rw [this]
    push_cast
    omega
  · intro st u rest hfree
    refine ⟨fun hle => ?_, fun hlt => ?_⟩
    · rw [walk_cons, if_neg hfree, if_pos hle]
    · rw [walk_cons, if_neg hfree, if_neg (by omega)]

theorem c25_skip_rule_witness :
    selection goSort 1 scenarioItems (15 * gib) = [] ++ mkTorrent 1 (10 * gib) "A" 1 :: [] ∧
    (1 : Int) < (groupCount (mkTorrent 1 (10 * gib) "A" 1).NormalizedTracker scenarioItems : Int) -
      (groupCount (mkTorrent 1 (10 * gib) "A" 1).NormalizedTracker [] : Int) ∧
    (1 : Int) ≤ (groupCount (mkTorrent 1 (10 * gib) "A" 1).NormalizedTracker scenarioItems : Int) -
      (groupCount (mkTorrent 1 (10 * gib) "A" 1).NormalizedTracker
        ([] ++ [mkTorrent 1 (10 * gib) "A" 1]) : Int) :=
  ⟨by decide,
    (c25_skip_rule goSort 1 scenarioItems (15 * gib) [] (mkTorrent 1 (10 * gib) "A" 1) []
      (by decide)).1,
    (c25_skip_rule goSort 1 scenarioItems (15 * gib) [] (mkTorrent 1 (10 * gib) "A" 1) []
      (by decide)).2.1⟩

/-- C27: for every listing and every floor, `selectTorrentsToRemove` with
`spaceNeeded <= 0` returns the empty selection. -/
theorem c27_no_deficit_no_selection (S : AgeSort) (m : Int) (torrents : List Torrent)
    (need : Int) (hneed : need ≤ 0) :
    selectTorrentsToRemove S m torrents need = .ok [] := by
  have hnil : selection S m torrents need = [] := by
    rw [selection_eq_picks]
    cases S.run torrents with
    | nil => rfl
    | cons t rest =>
      unfold picks
      rw [if_pos (by omega)]
  unfold selectTorrentsToRemove
  exact congrArg Except.ok hnil

theorem c27_no_deficit_no_selection_witness :
    (0 : Int) ≤ 0 ∧ selectTorrentsToRemove goSort 0 scenarioItems 0 = .ok [] :=
  ⟨by decide, c27_no_deficit_no_selection goSort 0 scenarioItems 0 (by decide)⟩

/-- C28: for every listing, floor and deficit, and every group with initial count `n`, the
group's remaining count after `selectTorrentsToRemove` is at least
`min(n, minTorrentsPerTracker)` (whatever the sign of the floor); and after every first part
of the walk the per-group counter of the loop equals `n` less the number of the group's
items selected so far, and is at least that bound. -/
theorem c28_floor_relative_to_count (S : AgeSort) (m : Int) (torrents : List Torrent)
    (need : Int) (g : String) :
    min (groupCount g torrents : Int) m ≤ remainingCount S m torrents need g ∧
    (∀ p q, S.run torrents = p ++ q →
      (walk m need p (initState S torrents)).remainingMap g =
        (groupCount g torrents : Int) -
          (groupCount g (walk m need p (initState S torrents)).toRemove : Int) ∧
      min (groupCount g torrents : Int) m ≤
        (walk m need p (initState S torrents)).remainingMap g) := by
  have step : ∀ p : List Torrent,
      (walk m need p (initState S torrents)).remainingMap g =
        (groupCount g torrents : Int) -
          (groupCount g (walk m need p (initState S torrents)).toRemove : Int) ∧
      min (groupCount g torrents : Int) m ≤
        (walk m need p (initState S torrents)).remainingMap g := by
    intro p
    obtain ⟨sel, h1, -, -, h4, h5, -⟩ := walk_spec m need p (initState S torrents)
    have hsel : (walk m need p (initState S torrents)).toRemove = sel := by
      rw [h1]
      simp [initState]
    have hrem := h4 g
    rw [initState_remaining] at hrem
    refine ⟨by rw [hsel]; exact hrem, ?_⟩
    by_cases hz : groupCount g sel = 0
    · rw [hrem, hz]
      simp
    · obtain ⟨t, ht, htg⟩ := (groupCount_pos_iff g sel).mp (Nat.pos_of_ne_zero hz)
      have := h5 t ht
      rw [htg] at this
      exact le_trans (min_le_right _ _) this
  refine ⟨?_, fun p _ _ => step p⟩
  have := (step (S.run torrents)).2
  have hrem := (selection_spec S m torrents need).2.2.1 g
  simp only [selectState] at hrem
  rwa [hrem] at this

/-- C29: the sequence returned by `selectTorrentsToRemove` is a sub-multiset of the listing:
a sublist of the walked order, which is a permutation of the listing.  So each of its
members is listed, no item occurs in it more often than in the listing, its length is at
most the listing's, and per group the number selected is at most the group's count. -/
theorem c29_selection_from_listing (S : AgeSort) (m : Int) (torrents : List Torrent)
    (need : Int) :
    selectTorrentsToRemove S m torrents need = .ok (selection S m torrents need) ∧
    (selection S m torrents need).Subperm torrents ∧
    (∀ t ∈ selection S m torrents need, t ∈ torrents) ∧
    (∀ t, (selection S m torrents need).count t ≤ torrents.count t) ∧
    (selection S m torrents need).length ≤ torrents.length ∧
    (∀ g, groupCount g (selection S m torrents need) ≤ groupCount g torrents) := by
  have hsub : (selection S m torrents need).Subperm torrents :=
    (selection_spec S m torrents need).1.subperm.trans (S.perm torrents).subperm
  refine ⟨rfl, hsub, selection_subset S m torrents need, fun t => hsub.count_le t,
    hsub.length_le, fun g => ?_⟩
  unfold groupCount
  exact hsub.countP_le _

/-- C30: for the same listing and floor and any `s1 <= s2`, the selection for the deficit
`s1` is a first part of the selection for the deficit `s2`. -/
theorem c30_monotone_in_deficit (S : AgeSort) (m : Int) (torrents : List Torrent)
    (s₁ s₂ : Int) (hs : s₁ ≤ s₂) :
    selection S m torrents s₁ <+: selection S m torrents s₂ ∧
    selectTorrentsToRemove S m torrents s₁ = .ok (selection S m torrents s₁) ∧
    selectTorrentsToRemove S m torrents s₂ = .ok (selection S m torrents s₂) := by
  refine ⟨?_, rfl, rfl⟩
  rw [selection_eq_picks, selection_eq_picks]
  exact picks_mono m s₁ s₂ hs _ _ _

theorem c30_monotone_in_deficit_witness :
    5 * gib ≤ 15 * gib ∧
    selection goSort 1 mixedItems (5 * gib) <+: selection goSort 1 mixedItems (15 * gib) ∧
    selectTorrentsToRemove goSort 1 mixedItems (5 * gib) =
      .ok (selection goSort 1 mixedItems (5 * gib)) ∧
    selectTorrentsToRemove goSort 1 mixedItems (15 * gib) =
      .ok (selection goSort 1 mixedItems (15 * gib)) :=
  ⟨by decide, c30_monotone_in_deficit goSort 1 mixedItems (5 * gib) (15 * gib) (by decide)⟩

theorem c28_floor_relative_to_count_witness :
    goSort.run scenarioItems =
      [mkTorrent 1 (10 * gib) "A" 1] ++
        [mkTorrent 2 (10 * gib) "A" 2, mkTorrent 3 (10 * gib) "B" 3] ∧
    (walk 1 (15 * gib) [mkTorrent 1 (10 * gib) "A" 1] (initState goSort scenarioItems)).remainingMap
        "A" =
      (groupCount "A" scenarioItems : Int) -
        (groupCount "A" (walk 1 (15 * gib) [mkTorrent 1 (10 * gib) "A" 1]
          (initState goSort scenarioItems)).toRemove : Int) ∧
    min (groupCount "A" scenarioItems : Int) 1 ≤
      (walk 1 (15 * gib) [mkTorrent 1 (10 * gib) "A" 1]
        (initState goSort scenarioItems)).remainingMap "A" :=
  ⟨by decide,
    (c28_floor_relative_to_count goSort 1 scenarioItems (15 * gib) "A").2
      [mkTorrent 1 (10 * gib) "A" 1]
      [mkTorrent 2 (10 * gib) "A" 2, mkTorrent 3 (10 * gib) "B" 3] (by decide)⟩

/-- C26: the sequence returned by `selectTorrentsToRemove` is ordered by non-decreasing
`AddedDate`; and an item of the walked order that the loop did not select and that is older
than the last selected item was met with its group's counter at or below
`minTorrentsPerTracker`.  (The item stands after the first part `p` of the walked order; not
selected means that walking it leaves `toRemove` as it was after `p`.) -/
theorem c26_oldest_first (S : AgeSort) (m : Int) (torrents : List Torrent) (need : Int) :
    (selection S m torrents need).Pairwise (fun a b => a.AddedDate ≤ b.AddedDate) ∧
    (∀ (p : List Torrent) (u : Torrent) (q : List Torrent) (z : Torrent),
      S.run torrents = p ++ u :: q →
      (walk m need (p ++ [u]) (initState S torrents)).toRemove =
        (walk m need p (initState S torrents)).toRemove →
      (selection S m torrents need).getLast? = some z →
      u.AddedDate < z.AddedDate →
      (walk m need p (initState S torrents)).remainingMap u.NormalizedTracker ≤ m) := by
  have hsorted : (S.run torrents).Pairwise (fun a b => a.AddedDate ≤ b.AddedDate) := by
    refine (S.sorted torrents).imp ?_
    intro a b hab
    simp only [TorrentsByAge.Less, decide_eq_false_iff_not] at hab
    omega
  refine ⟨hsorted.sublist (selection_spec S m torrents need).1, ?_⟩
  intro p u q z hrun hskip hlast hold
  by_contra hnot
  rw [walk_append, walk_cons] at hskip
  by_cases hb : (walk m need p (initState S torrents)).totalFreed ≥ need
  · have hfinal : selection S m torrents need =
        (walk m need p (initState S torrents)).toRemove := by
      unfold selection selectState
      rw [hrun, walk_append, walk_done m need (u :: q) _ hb]
    obtain ⟨sel, h1, h2, -⟩ := walk_spec m need p (initState S torrents)
    have hz : z ∈ p := by
      have hzs : z ∈ selection S m torrents need := List.mem_of_getLast?_eq_some hlast
      rw [hfinal, h1] at hzs
      simp only [initState, List.nil_append] at hzs
      exact h2.subset hzs
    rw [hrun] at hsorted
    have := (List.pairwise_append.mp hsorted).2.2 z hz u (by simp)
    omega
  · rw [if_neg hb, if_neg hnot] at hskip
    simp only [walk] at hskip
    have := congrArg List.length hskip
    simp at this

theorem c26_oldest_first_witness :
    goSort.run mixedItems =
      [mkTorrent 1 (10 * gib) "A" 1] ++ mkTorrent 2 (10 * gib) "A" 2 ::
        [mkTorrent 3 (10 * gib) "B" 3, mkTorrent 4 (10 * gib) "B" 4] ∧
    (walk 1 (15 * gib) ([mkTorrent 1 (10 * gib) "A" 1] ++ [mkTorrent 2 (10 * gib) "A" 2])
        (initState goSort mixedItems)).toRemove =
      (walk 1 (15 * gib) [mkTorrent 1 (10 * gib) "A" 1] (initState goSort mixedItems)).toRemove ∧
    (selection goSort 1 mixedItems (15 * gib)).getLast? = some (mkTorrent 3 (10 * gib) "B" 3) ∧
    (mkTorrent 2 (10 * gib) "A" 2).AddedDate < (mkTorrent 3 (10 * gib) "B" 3).AddedDate ∧
    (walk 1 (15 * gib) [mkTorrent 1 (10 * gib) "A" 1]
      (initState goSort mixedItems)).remainingMap
        (mkTorrent 2 (10 * gib) "A" 2).NormalizedTracker ≤ 1 :=
  ⟨by decide, by decide, by decide, by decide,
    (c26_oldest_first goSort 1 mixedItems (15 * gib)).2
      [mkTorrent 1 (10 * gib) "A" 1] (mkTorrent 2 (10 * gib) "A" 2)
      [mkTorrent 3 (10 * gib) "B" 3, mkTorrent 4 (10 * gib) "B" 4] (mkTorrent 3 (10 * gib) "B" 3)
      (by decide) (by decide) (by decide) (by decide)⟩

/-! ## Claims on the manual deletion, the configuration and the modes -/

/-- C21: `handleDelete` puts one entry in front of the history, with reason "manual", the id
of the request and the name, tracker and size of the listed torrent with that id (the
zero values when no listed torrent has it), when the request is a POST with a numeric id,
the listing succeeds and the `RemoveTorrent` call succeeds; in every other case (another
method, a missing or non-numeric id, a failed listing, a failed removal) the cleaner and its
history are unchanged, and a rejected request makes no call at all. -/
theorem c21_manual_delete {σ : Type} (E : Env σ) (c : Cleaner) (r : DeleteRequest)
    (w : World σ) :
    (∀ (id : Int) (ts : List Torrent) (u : Unit), r.Method = "POST" → r.id ≠ "" →
      Atoi r.id = .ok id → (E.GetTorrents w.store).1 = .ok ts →
      (E.RemoveTorrent id true (E.GetTorrents w.store).2).1 = .ok u →
      (handleDelete E c r w).1.status = 200 ∧
      (handleDelete E c r w).2.1.history =
        ({ ID := id, Name := (torrentInfo ts id).1, Size := (torrentInfo ts id).2.2,
           Tracker := (torrentInfo ts id).2.1,
           DeletedAt := E.Now (E.RemoveTorrent id true (E.GetTorrents w.store).2).2,
           Reason := "manual" } :: c.history).take 50 ∧
      (handleDelete E c r w).2.2.calls =
        w.calls ++ [Call.GetTorrents, Call.RemoveTorrent id true] ∧
      (∀ t, ts.find? (fun t => t.ID = id) = some t →
        torrentInfo ts id = (t.Name, t.NormalizedTracker, t.TotalSize)) ∧
      (ts.find? (fun t => t.ID = id) = none → torrentInfo ts id = ("", "", 0))) ∧
    ((¬ ∃ (id : Int) (ts : List Torrent) (u : Unit), r.Method = "POST" ∧ r.id ≠ "" ∧
        Atoi r.id = .ok id ∧ (E.GetTorrents w.store).1 = .ok ts ∧
        (E.RemoveTorrent id true (E.GetTorrents w.store).2).1 = .ok u) →
      (handleDelete E c r w).2.1 = c ∧ (handleDelete E c r w).1.status ≠ 200) ∧
    ((r.Method ≠ "POST" ∨ r.id = "" ∨ ∃ e, Atoi r.id = .error e) →
      (handleDelete E c r w).2 = (c, w)) := by
  refine ⟨?_, ?_, ?_⟩
  · intro id ts u hm hid hatoi hlist hrem
    have hinfo : (∀ t, ts.find? (fun t => t.ID = id) = some t →
          torrentInfo ts id = (t.Name, t.NormalizedTracker, t.TotalSize)) ∧
        (ts.find? (fun t => t.ID = id) = none → torrentInfo ts id = ("", "", 0)) := by
      constructor
      · intro t ht
        simp only [torrentInfo, ht]
      · intro ht
        simp only [torrentInfo, ht]
    simp only [handleDelete, hm, hid, hatoi, callGetTorrents, hlist, callRemoveTorrent, hrem,
      ne_eq, not_true_eq_false, if_false, AddManualDeletion, addToHistory_history]
    exact ⟨trivial, rfl, by simp, hinfo.1, hinfo.2⟩
  · intro hno
    unfold handleDelete
    by_cases hm : r.Method ≠ "POST"
    · rw [if_pos hm]
      exact ⟨rfl, by simp⟩
    · rw [if_neg hm]
      by_cases hid : r.id = ""
      · rw [if_pos hid]
        exact ⟨rfl, by simp⟩
      · rw [if_neg hid]
        cases hatoi : Atoi r.id with
        | error e => exact ⟨rfl, by simp⟩
        | ok id =>
          simp only [callGetTorrents]
          cases hlist : (E.GetTorrents w.store).1 with
          | error e => exact ⟨rfl, by simp⟩
          | ok ts =>
            simp only [callRemoveTorrent]
            cases hrem : (E.RemoveTorrent id true (E.GetTorrents w.store).2).1 with
            | error e => exact ⟨rfl, by simp⟩
            | ok u =>
              exact absurd ⟨id, ts, u, not_not.mp hm, hid, hatoi, hlist, hrem⟩ hno
  · intro hrej
    unfold handleDelete
    by_cases hm : r.Method ≠ "POST"
    · rw [if_pos hm]
    · rw [if_neg hm]
      by_cases hid : r.id = ""
      · rw [if_pos hid]
      · rw [if_neg hid]
        rcases hrej with h | h | ⟨e, he⟩
        · exact absurd h hm
        · exact absurd h hid
        · rw [he]

theorem c21_manual_delete_witness :
    ({ Method := "POST", id := "2" } : DeleteRequest).Method = "POST" ∧
    ({ Method := "POST", id := "2" } : DeleteRequest).id ≠ "" ∧
    Atoi ({ Method := "POST", id := "2" } : DeleteRequest).id = .ok 2 ∧
    (simEnv.GetTorrents simWorld.store).1 = .ok scenarioItems ∧
    (simEnv.RemoveTorrent 2 true (simEnv.GetTorrents simWorld.store).2).1 = .ok () ∧
    (handleDelete simEnv (New 0 2 false) { Method := "POST", id := "2" } simWorld).1.status
      = 200 ∧
    (handleDelete simEnv (New 0 2 false) { Method := "POST", id := "2" } simWorld).2.1.history =
      ({ ID := 2, Name := (torrentInfo scenarioItems 2).1,
         Size := (torrentInfo scenarioItems 2).2.2,
         Tracker := (torrentInfo scenarioItems 2).2.1,
         DeletedAt := simEnv.Now
           (simEnv.RemoveTorrent 2 true (simEnv.GetTorrents simWorld.store).2).2,
         Reason := "manual" } :: (New 0 2 false).history).take 50 ∧
    torrentInfo scenarioItems 2 = ("", "A", 10 * gib) :=
  ⟨rfl, by decide, rfl, rfl, rfl,
    ((c21_manual_delete simEnv (New 0 2 false) { Method := "POST", id := "2" } simWorld).1 2
      scenarioItems () rfl (by decide) rfl rfl rfl).1,
    ((c21_manual_delete simEnv (New 0 2 false) { Method := "POST", id := "2" } simWorld).1 2
      scenarioItems () rfl (by decide) rfl rfl rfl).2.1,
    by decide⟩

/-- C22 (the code at the failing input): `parseSize` returns -5, without error, for the
text "-5", a negative number; `Load` then returns a configuration whose free-space target is
-5, with which a cleaner is built.  (A negative number with a unit, "-5GB", is refused by
the pattern; "100" parses to 100 bytes and "100KB", "100MB", "100GB", "100TB" to 100 times
the powers of 1024.) -/
theorem c22_negative_target_accepted (F : FloatScale) :
    parseSize F "-5" = .ok (-5) ∧
    Load F "-5" "http://localhost:9091/transmission/rpc" = .ok (-5) ∧
    (New (-5) 2 false).minFreeSpace < 0 ∧
    parseSize F "-5GB" = .error "invalid size format: -5GB" ∧
    parseSize F "100" = .ok 100 ∧
    parseSize F "100KB" = .ok (100 * 1024) ∧
    parseSize F "100MB" = .ok (100 * 1024 ^ 2) ∧
    parseSize F "100GB" = .ok (100 * 1024 ^ 3) ∧
    parseSize F "100TB" = .ok (100 * 1024 ^ 4) := by
  have scaled : ∀ (s : String) (mult : Int),
      mult ∈ [1, 1024, 1024 * 1024, 1024 * 1024 * 1024, 1024 * 1024 * 1024 * 1024] →
      parseSize F s =
        (match F.run "100" mult with
          | .error _ => .error ("invalid number: " ++ "100")
          | .ok v => .ok v) →
      parseSize F s = .ok (100 * mult) := by
    intro s mult hmem hs
    have hdigits : digitsValue "100".data = 100 := by decide
    have hlt : (digitsValue "100".data : Int) * mult < 2 ^ 63 := by
      rw [hdigits]
      simp only [List.mem_cons, List.mem_singleton, List.not_mem_nil, or_false] at hmem
      rcases hmem with h | h | h | h | h <;> rw [h] <;> decide
    have h := F.exact "100" mult (by decide) (by decide) hmem (by decide) hlt
    rw [hs, h, hdigits]
    rfl
  refine ⟨rfl, rfl, by decide, rfl, rfl, ?_, ?_, ?_, ?_⟩
  · exact scaled "100KB" 1024 (by decide) rfl
  · exact scaled "100MB" (1024 * 1024) (by decide) rfl
  · exact scaled "100GB" (1024 * 1024 * 1024) (by decide) rfl
  · exact scaled "100TB" (1024 * 1024 * 1024 * 1024) (by decide) rfl

theorem runCleanupCheck_state {σ : Type} (E : Env σ) (S : AgeSort) (c : Cleaner)
    (w : World σ) : (runCleanupCheck E S c w).2 = (Run E S c w).2 := by
  unfold runCleanupCheck
  split <;> rfl

theorem runTimes_succ {σ : Type} (E : Env σ) (S : AgeSort) (n : Nat) (cw : Cleaner × World σ) :
    runTimes E S (n + 1) cw = (Run E S (runTimes E S n cw).1 (runTimes E S n cw).2).2 := by
  induction n generalizing cw with
  | zero => rfl
  | succ k ih =>
    rw [runTimes, ih]
    rfl

/-- While the loop receives ticks only it does not return, and it leaves the cleaner and the
world as one `Run` per tick leaves them. -/
theorem daemonLoop_ticks {σ : Type} (E : Env σ) (S : AgeSort)
    (webServer : Option (Except String Unit)) (events : List DaemonEvent) (st : ModeState σ)
    (hticks : ∀ ev ∈ events, ev = DaemonEvent.tick) :
    (daemonLoop E S webServer events st).returned = st.returned ∧
    ((daemonLoop E S webServer events st).cleaner, (daemonLoop E S webServer events st).world) =
      runTimes E S events.length (st.cleaner, st.world) := by
  induction events generalizing st with
  | nil => exact ⟨rfl, rfl⟩
  | cons ev rest ih =>
    have hev : ev = DaemonEvent.tick := hticks ev (by simp)
    subst hev
    have h := ih
      { st with cleaner := (runCleanupCheck E S st.cleaner st.world).2.1
                world := (runCleanupCheck E S st.cleaner st.world).2.2 }
      (fun ev hmem => hticks ev (List.mem_cons_of_mem _ hmem))
    simp only [daemonLoop]
    refine ⟨h.1, ?_⟩
    rw [h.2]
    simp only [List.length_cons, runTimes, runCleanupCheck_state]

theorem daemonLoop_returned {σ : Type} (E : Env σ) (S : AgeSort)
    (webServer : Option (Except String Unit)) (events : List DaemonEvent) (st : ModeState σ)
    (hst : st.returned = none)
    (hret : (daemonLoop E S webServer events st).returned ≠ none) :
    DaemonEvent.signal ∈ events := by
  induction events generalizing st with
  | nil =>
    simp only [daemonLoop] at hret
    exact absurd hst hret
  | cons ev rest ih =>
    cases ev with
    | signal => simp
    | tick =>
      simp only [daemonLoop] at hret
      exact List.mem_cons_of_mem _ (ih _ (by exact hst) hret)

theorem daemonLoop_signal {σ : Type} (E : Env σ) (S : AgeSort)
    (webServer : Option (Except String Unit)) (pre post : List DaemonEvent) (st : ModeState σ)
    (hticks : ∀ ev ∈ pre, ev = DaemonEvent.tick) :
    (daemonLoop E S webServer (pre ++ DaemonEvent.signal :: post) st).returned =
      some (stopServer webServer) ∧
    ((daemonLoop E S webServer (pre ++ DaemonEvent.signal :: post) st).cleaner,
      (daemonLoop E S webServer (pre ++ DaemonEvent.signal :: post) st).world) =
      runTimes E S pre.length (st.cleaner, st.world) := by
  induction pre generalizing st with
  | nil => exact ⟨rfl, rfl⟩
  | cons ev rest ih =>
    have hev : ev = DaemonEvent.tick := hticks ev (by simp)
    subst hev
    have h := ih
      { st with cleaner := (runCleanupCheck E S st.cleaner st.world).2.1
                world := (runCleanupCheck E S st.cleaner st.world).2.2 }
      (fun ev hmem => hticks ev (List.mem_cons_of_mem _ hmem))
    rw [List.cons_append]
    simp only [daemonLoop]
    refine ⟨h.1, ?_⟩
    rw [h.2]
    simp only [List.length_cons, runTimes, runCleanupCheck_state]

/-- C23: `runOneShot` calls `Run` exactly once (it leaves the cleaner and the world, call log
included, as that one `Run` on the initial state leaves them) and, whenever that `Run`
fails, returns an error (the `Run` error wrapped).  `runDaemon` does not return on a failed
`Run`: as long as it has received ticks only it has not returned, whatever the outcome of the
initial check and of the check of every tick, and the cleaner and the world are as one `Run`
at start and one `Run` per tick leave them; it returns only when a signal is received, with
the result of stopping the web server. -/
theorem c23_fatal_in_one_shot_only {σ : Type} (E : Env σ) (S : AgeSort)
    (webServer : Option (Except String Unit)) (c : Cleaner) (w : World σ) :
    (∀ signalled,
      ((runOneShot E S webServer signalled c w).cleaner,
        (runOneShot E S webServer signalled c w).world) = (Run E S c w).2 ∧
      ((runOneShot E S webServer signalled c w).cleaner,
        (runOneShot E S webServer signalled c w).world) = runTimes E S 1 (c, w)) ∧
    (∀ signalled e, (Run E S c w).1 = .error e →
      (runOneShot E S webServer signalled c w).returned =
        some (.error ("cleanup failed: " ++ e))) ∧
    (∀ signalled r, (Run E S c w).1 = .ok r →
      (runOneShot E S webServer signalled c w).returned =
        match webServer with
        | some stop => if signalled then some stop else none
        | none => some (.ok ())) ∧
    (∀ events, (∀ ev ∈ events, ev = DaemonEvent.tick) →
      (runDaemon E S webServer events c w).returned = none ∧
      ((runDaemon E S webServer events c w).cleaner,
        (runDaemon E S webServer events c w).world) =
          runTimes E S (events.length + 1) (c, w)) ∧
    (∀ events, (runDaemon E S webServer events c w).returned ≠ none →
      DaemonEvent.signal ∈ events) ∧
    (∀ pre post, (∀ ev ∈ pre, ev = DaemonEvent.tick) →
      (runDaemon E S webServer (pre ++ DaemonEvent.signal :: post) c w).returned =
        some (stopServer webServer) ∧
      ((runDaemon E S webServer (pre ++ DaemonEvent.signal :: post) c w).cleaner,
        (runDaemon E S webServer (pre ++ DaemonEvent.signal :: post) c w).world) =
          runTimes E S (pre.length + 1) (c, w)) := by
  refine ⟨?_, ?_, ?_, ?_, ?_, ?_⟩
  · intro signalled
    have h : ((runOneShot E S webServer signalled c w).cleaner,
        (runOneShot E S webServer signalled c w).world) = (Run E S c w).2 := by
      unfold runOneShot
      split
      · rfl
      · split <;> rfl
    exact ⟨h, h⟩
  · intro signalled e he
    unfold runOneShot
    rw [he]
  · intro signalled r hr
    unfold runOneShot
    rw [hr]
    cases webServer <;> rfl
  · intro events hticks
    have h := daemonLoop_ticks E S webServer events
      { returned := none, cleaner := (runCleanupCheck E S c w).2.1,
        world := (runCleanupCheck E S c w).2.2 } hticks
    refine ⟨h.1, ?_⟩
    unfold runDaemon
    rw [h.2]
    simp only [runTimes, runCleanupCheck_state]
  · intro events hret
    exact daemonLoop_returned E S webServer events _ rfl hret
  · intro pre post hticks
    have h := daemonLoop_signal E S webServer pre post
      { returned := none, cleaner := (runCleanupCheck E S c w).2.1,
        world := (runCleanupCheck E S c w).2.2 } hticks
    refine ⟨h.1, ?_⟩
    unfold runDaemon
    rw [h.2]
    simp only [runTimes, runCleanupCheck_state]

theorem c23_fatal_in_one_shot_only_witness :
    (Run simEnv goSort (New (110 * gib) 1 false) offlineWorld).1 =
      .error "failed to get free space: unreachable" ∧
    (runOneShot simEnv goSort none false (New (110 * gib) 1 false) offlineWorld).returned =
      some (.error ("cleanup failed: " ++ "failed to get free space: unreachable")) ∧
    (runOneShot simEnv goSort none false (New (110 * gib) 1 false) offlineWorld).world.calls =
      [Call.GetFreeSpace] ∧
    (runDaemon simEnv goSort none [DaemonEvent.tick, DaemonEvent.tick]
      (New (110 * gib) 1 false) offlineWorld).world.calls =
      [Call.GetFreeSpace, Call.GetFreeSpace, Call.GetFreeSpace] ∧
    (∀ ev ∈ [DaemonEvent.tick, DaemonEvent.tick], ev = DaemonEvent.tick) ∧
    (runDaemon simEnv goSort none [DaemonEvent.tick, DaemonEvent.tick]
      (New (110 * gib) 1 false) offlineWorld).returned = none ∧
    ((runDaemon simEnv goSort none [DaemonEvent.tick, DaemonEvent.tick]
        (New (110 * gib) 1 false) offlineWorld).cleaner,
      (runDaemon simEnv goSort none [DaemonEvent.tick, DaemonEvent.tick]
        (New (110 * gib) 1 false) offlineWorld).world) =
      runTimes simEnv goSort ([DaemonEvent.tick, DaemonEvent.tick].length + 1)
        (New (110 * gib) 1 false, offlineWorld) :=
  ⟨rfl,
    (c23_fatal_in_one_shot_only simEnv goSort none (New (110 * gib) 1 false) offlineWorld).2.1
      false "failed to get free space: unreachable" rfl,
    by decide,
    by decide,
    by decide,
    (c23_fatal_in_one_shot_only simEnv goSort none (New (110 * gib) 1 false)
      offlineWorld).2.2.2.1 [DaemonEvent.tick, DaemonEvent.tick] (by decide)⟩

end Btcleaner
